import Mathlib

set_option maxRecDepth 8192

/-!
Verification development for the be_indexer boolean-expression retrieval index.

The definitions below are a shallow embedding of the index-construction pipeline
of the repository: the default entries holder (entries_holder.go), the indexer
builder (document validation, conjunction indexing, the builder cache), and the
small amount of index state the builder writes into (wildcard entries and the
per-size, per-field posting-list holders).

Go hash maps are embedded as association lists with first-match lookup; Go
slices as Lean lists; Go machine integers as Nat (all quantities involved are
non-negative counters, lengths and packed identifiers).  Fallible Go functions
returning (T, error) are embedded as Except String T; functions that can also
call panic are embedded with an explicit three-way outcome type.
-/

/-- Field names, as in the Go type BEField. -/
abbrev BEField := String

/-- Opaque field values fed to the value parsers. The claims under study never
depend on the value domain, only on how parsed token ids flow; Int suffices. -/
abbrev Value := Int

/-- Ordered collection of values, as in the Go type Values. -/
abbrev Values := List Value

/-- Token ids produced by value parsers (Go uint64). -/
abbrev TokenID := Nat

/-- Packed entry id (Go EntryID, a uint64). -/
abbrev EntryID := Nat

/-- Posting-list key (FieldID, TokenID), as built by NewKey. -/
abbrev Key := Nat × Nat

/-- An entries sequence (Go Entries = []EntryID). -/
abbrev Entries := List EntryID

/-- Association-list lookup with first-match semantics; the embedding of
reading a Go map. -/
def alookup {κ ν : Type} [DecidableEq κ] (k : κ) : List (κ × ν) → Option ν
  | [] => none
  | kv :: rest => if k = kv.1 then some kv.2 else alookup k rest

/-- Association-list store: replace the binding of the key in place, or append
a new binding; the embedding of writing a Go map. -/
def aset {κ ν : Type} [DecidableEq κ] (k : κ) (v : ν) : List (κ × ν) → List (κ × ν)
  | [] => [(k, v)]
  | kv :: rest => if k = kv.1 then (k, v) :: rest else kv :: aset k v rest

theorem alookup_aset_self {κ ν : Type} [DecidableEq κ] (k : κ) (v : ν) (l : List (κ × ν)) :
    alookup k (aset k v l) = some v := by
  induction l with
  | nil => simp [alookup, aset]
  | cons kv rest ih =>
    by_cases h : k = kv.1
    · simp [alookup, aset, h]
    · simp [alookup, aset, h, ih]

theorem alookup_aset_ne {κ ν : Type} [DecidableEq κ] (k k2 : κ) (v : ν) (l : List (κ × ν))
    (h : k2 ≠ k) : alookup k2 (aset k v l) = alookup k2 l := by
  induction l with
  | nil => simp [alookup, aset, h]
  | cons kv rest ih =>
    by_cases hk : k = kv.1
    · subst hk
      simp [alookup, aset, h]
    · by_cases h2 : k2 = kv.1
      · simp [alookup, aset, hk, h2]
      · simp [alookup, aset, hk, h2, ih]

theorem alookup_append_some {κ ν : Type} [DecidableEq κ] (k : κ) (v : ν)
    (l l2 : List (κ × ν)) (h : alookup k l = some v) :
    alookup k (l ++ l2) = some v := by
  induction l with
  | nil => simp [alookup] at h
  | cons kv rest ih =>
    by_cases hk : k = kv.1
    · simp [alookup, hk] at h ⊢
      exact h
    · simp [alookup, hk] at h ⊢
      exact ih h

theorem alookup_append_none {κ ν : Type} [DecidableEq κ] (k : κ)
    (l l2 : List (κ × ν)) (h : alookup k l = none) :
    alookup k (l ++ l2) = alookup k l2 := by
  induction l with
  | nil => simp
  | cons kv rest ih =>
    by_cases hk : k = kv.1
    · simp [alookup, hk] at h
    · simp [alookup, hk] at h ⊢
      exact ih h

theorem aset_of_absent {κ ν : Type} [DecidableEq κ] (k : κ) (v : ν) (l : List (κ × ν))
    (h : alookup k l = none) : aset k v l = l ++ [(k, v)] := by
  induction l with
  | nil => simp [aset]
  | cons kv rest ih =>
    by_cases hk : k = kv.1
    · simp [alookup, hk] at h
    · simp [alookup, hk] at h
      simp [aset, hk, ih h]

/-- Packs a conjunction id from (docID, index of the conjunction inside the
document, include-size K).  Modelled from the spec: ConjunctionID packs
(DocID: 32 bits, ConjIndex: 8 bits, Size K: up to 8 bits); the size sits in the
low 8 bits so that Size below recovers it. -/
def NewConjID (docID idx size : Nat) : Nat :=
  docID * 65536 + (idx % 256) * 256 + size % 256

/-- Recovers the include-size K from a packed conjunction id (Go ConjID.Size).
Modelled from the spec packing layout. -/
def conjIDSize (conjID : Nat) : Nat := conjID % 256

/-- Packs an entry id from a conjunction id and the inclusion flag.  Modelled
from the spec: the inclusion flag occupies the least significant bit so an
exclude entry sorts before the include entry of the same conjunction. -/
def NewEntryID (conjID : Nat) (incl : Bool) : EntryID :=
  conjID * 2 + (if incl then 1 else 0)

/-- Builds a posting-list key from a field id and a token id (Go NewKey). -/
def NewKey (fieldID : Nat) (id : TokenID) : Key := (fieldID, id)

/-- Default entries holder state (Go DefaultEntriesHolder): a hash map from
keys to entry sequences plus the statistics filled in by compilation. -/
structure DefaultEntriesHolder where
  debug : Bool := false
  maxLen : Nat := 0
  avgLen : Nat := 0
  plEntries : List (Key × Entries) := []
  deriving DecidableEq

/-- Embeds DefaultEntriesHolder.AppendEntryID from entries_holder.go.  The map
read yields the Go zero value (a nil slice) together with the hit flag; on a
miss the method first stores a one-element list, but the subsequent append
operates on the still-nil local variable and its store overwrites the slot. -/
def DefaultEntriesHolder.AppendEntryID (h : DefaultEntriesHolder) (key : Key) (id : EntryID) :
    DefaultEntriesHolder :=
  let found := alookup key h.plEntries
  let entries : Entries := found.getD []
  let h1 := if found.isSome then h else { h with plEntries := aset key [id] h.plEntries }
  let entries2 := entries ++ [id]
  { h1 with plEntries := aset key entries2 h1.plEntries }

/-- Embeds DefaultEntriesHolder.getEntries: a map read returning the Go nil
slice (the empty list) when the key is absent. -/
def DefaultEntriesHolder.getEntries (h : DefaultEntriesHolder) (key : Key) : Entries :=
  (alookup key h.plEntries).getD []

/-- Ascending sort of one posting list.  The Go code calls sort.Sort on
Entries; its order is modelled from the spec: entries are sorted ascending by
the packed EntryID integer. -/
def sortEntries (es : Entries) : Entries :=
  List.insertionSort (fun a b => a ≤ b) es

/-- Embeds DefaultEntriesHolder.makeEntriesSorted: sort every posting list,
fold the running maximum of the lengths starting from the current maxLen, sum
the lengths, and set avgLen to the integer quotient when the map is non-empty. -/
def DefaultEntriesHolder.makeEntriesSorted (h : DefaultEntriesHolder) : DefaultEntriesHolder :=
  let pl := h.plEntries.map (fun kv => (kv.1, sortEntries kv.2))
  let maxLen := pl.foldl (fun m kv => if m < kv.2.length then kv.2.length else m) h.maxLen
  let total := pl.foldl (fun t kv => t + kv.2.length) 0
  let avgLen := if 0 < pl.length then total / pl.length else h.avgLen
  { h with plEntries := pl, maxLen := maxLen, avgLen := avgLen }

/-- Embeds DefaultEntriesHolder.CompileEntries. -/
def DefaultEntriesHolder.CompileEntries (h : DefaultEntriesHolder) : DefaultEntriesHolder :=
  h.makeEntriesSorted

/-- Value parser capability set.  Modelled from the spec parser contract:
ParseValue tokenizes document-side values, ParseAssign query-side values. -/
structure FieldValueParser where
  ParseValue : Value → Except String (List TokenID)
  ParseAssign : Value → Except String (List TokenID)

/-- Field configuration options (Go FieldOption). -/
structure FieldOption where
  Parser : String
  Container : String

/-- Per-field descriptor (Go FieldDesc): dense id, name, options and the
resolved value parser. -/
structure FieldDesc where
  ID : Nat
  Field : BEField
  opt : FieldOption
  Parser : FieldValueParser

/-- Query-side key tagging a cursor with (field, query value) (Go newQKey). -/
abbrev QKey := BEField × Value

/-- Builds a query-side key (Go newQKey). -/
def newQKey (field : BEField) (v : Value) : QKey := (field, v)

/-- One entries cursor produced at query time (Go NewEntriesCursor): the query
key it is tagged with and the posting list it walks. -/
structure EntriesCursor where
  qkey : QKey
  entries : Entries

/-- Builds an entries cursor (Go NewEntriesCursor). -/
def NewEntriesCursor (qk : QKey) (es : Entries) : EntriesCursor :=
  { qkey := qk, entries := es }

/-- A cursor group: the aggregation GetEntries returns (Go CursorGroup). -/
abbrev CursorGroup := List EntriesCursor

/-- Embeds the loop body of DefaultEntriesHolder.GetEntries: iterate the query
values in order, abort with the parser error on failure, and append one cursor
per token id whose posting list is non-empty. -/
def DefaultEntriesHolder.GetEntriesLoop (h : DefaultEntriesHolder) (field : FieldDesc) :
    List Value → CursorGroup → Except String CursorGroup
  | [], r => .ok r
  | vi :: rest, r =>
    match field.Parser.ParseAssign vi with
    | .error e => .error e
    | .ok ids =>
      let r2 := ids.foldl (fun acc id =>
        let key := NewKey field.ID id
        let entries := h.getEntries key
        if 0 < entries.length then acc ++ [NewEntriesCursor (newQKey field.Field vi) entries]
        else acc) r
      h.GetEntriesLoop field rest r2

/-- Embeds DefaultEntriesHolder.GetEntries from entries_holder.go.  On a parse
error the Go method returns (nil, err); the error constructor carries no
cursor group, matching that no partial result is returned. -/
def DefaultEntriesHolder.GetEntries (h : DefaultEntriesHolder) (field : FieldDesc)
    (assigns : Values) : Except String CursorGroup :=
  h.GetEntriesLoop field assigns []

/-- Outcome of a builder operation that can succeed, return an error, or crash
the process.  Errors carry the builder state as of the return statement;
a panic unwinds the process so no state is observed. -/
inductive BuildOutcome (σ : Type) where
  | ok (st : σ)
  | err (st : σ) (msg : String)
  | panicked (msg : String)
  deriving DecidableEq

/-- Projects the state of a successful outcome. -/
def BuildOutcome.okStateQ {σ : Type} : BuildOutcome σ → Option σ
  | .ok st => some st
  | _ => none

/-- Projects the state and message of an error outcome. -/
def BuildOutcome.errStateQ {σ : Type} : BuildOutcome σ → Option (σ × String)
  | .err st msg => some (st, msg)
  | _ => none

/-- Tests whether an outcome is an error return. -/
def BuildOutcome.isErr {σ : Type} : BuildOutcome σ → Bool
  | .err _ _ => true
  | _ => false

/-- Projects the error message of an Except value. -/
def Except.errQ {ε α : Type} : Except ε α → Option ε
  | .error e => some e
  | _ => none

/-- Constant ErrorBadConj: a bad conjunction aborts the document build. -/
def ErrorBadConj : Int := 0

/-- Constant SkipBadConj: a bad conjunction is skipped. -/
def SkipBadConj : Int := 1

/-- Constant PanicBadConj: a bad conjunction crashes the process. -/
def PanicBadConj : Int := 2

/-- Name of the default entries holder.  Modelled from the spec: container
names include at minimum the default holder. -/
def HolderNameDefault : String := "default"

/-- Serialized transaction payload.  Modelled from the spec: the per-field
cache payload is an opaque byte string that either decodes back to the
transaction data or is malformed; none stands for a malformed payload. -/
abbrev TxBytes := Option (List TokenID)

/-- Per-field cached record (Eid and encoded payload), as stored by
tryCacheIndexingTx into the protobuf FieldCache message. -/
structure FieldCache where
  eid : Nat
  data : TxBytes
  deriving DecidableEq

/-- Cached per-conjunction message (protobuf IndexingTxCache): the conjunction
id and one record per field name. -/
structure IndexingTxCache where
  conjunctionId : Nat
  fieldData : List (BEField × FieldCache)
  deriving DecidableEq

/-- Marshalled cache bytes.  Modelled from the spec: an opaque serialization
that either unmarshals back to the message or is malformed (none). -/
abbrev CacheBytes := Option IndexingTxCache

/-- Modelled from the spec: proto.Marshal of the cache message; the encoding
round-trips through protoUnmarshal. -/
def protoMarshal (m : IndexingTxCache) : CacheBytes := some m

/-- Modelled from the spec: proto.Unmarshal; fails exactly on malformed bytes. -/
def protoUnmarshal : CacheBytes → Except String IndexingTxCache
  | some m => .ok m
  | none => .error "unmarshal fail"

/-- Modelled from the spec: the default holder TxData.Encode; total, and
round-trips through DecodeTxData. -/
def encodeTxData (d : List TokenID) : Except String TxBytes := .ok (some d)

/-- Modelled from the spec: the default holder DecodeTxData; fails exactly on
malformed payloads. -/
def DecodeTxData : TxBytes → Except String (List TokenID)
  | some d => .ok d
  | none => .error "decode fail"

/-- Modelled from the spec: TxData.BetterToCache lets a transaction bundle opt
in to caching; the default-holder model always opts in. -/
def txDataBetterToCache (_ : List TokenID) : Bool := true

/-- One indexing transaction (Go IndexingBETx): the field descriptor, the
destination holder (identified by its (size K, field id) slot), the entry id
and the parsed transaction data. -/
structure IndexingBETx where
  fieldD : FieldDesc
  holderKey : Nat × Nat
  EID : EntryID
  Data : List TokenID

/-- A boolean expression of one conjunction (Go Expression): the inclusion
flag and the value list. -/
structure Expression where
  Incl : Bool
  ExprValues : Values

/-- A conjunction (Go Conjunction.Expressions): per-field expression lists.
The Go field is a hash map; embedded as an association list. -/
abbrev Conjunction := List (BEField × List Expression)

/-- A document (Go Document): its id and its conjunctions.  DocIDs are int32
in Go; the claims only involve non-negative ids, embedded as Nat. -/
structure Document where
  ID : Nat
  Cons : List Conjunction

/-- Computes the include-size K of a conjunction.  Modelled from the spec:
K is the number of expressions with the inclusion flag set; excludes do not
count. -/
def Conjunction.CalcConjSize (conj : Conjunction) : Nat :=
  conj.foldl (fun acc fe => acc + fe.2.countP (fun e => e.Incl)) 0

/-- Builder cache content: conjunction id to marshalled bytes, behind the
CacheProvider Get/Set contract.  Modelled from the spec cache provider. -/
abbrev CacheMap := List (Nat × CacheBytes)

/-- Builder plus the index state it writes into (Go IndexerBuilder together
with the indexBase of its indexer): the parser registry resolving parser
names, the configured fields, the failure policy, the optional build cache,
and the index side (wildcard entries and the per-(K, field) default holders). -/
structure IndexerBuilder where
  parserOf : String → FieldValueParser
  fieldsData : List (BEField × FieldDesc)
  badConjBehavior : Int
  builderCache : Option CacheMap
  wildcardEntries : Entries
  holders : List ((Nat × Nat) × DefaultEntriesHolder)

/-- Builds the descriptor stored for a newly configured field: the dense id is
the current number of configured fields, and the parser is resolved from the
registry by the option parser name. -/
def newFieldDesc (b : IndexerBuilder) (field : BEField) (opt : FieldOption) : FieldDesc :=
  { ID := b.fieldsData.length, Field := field, opt := opt, Parser := b.parserOf opt.Parser }

/-- Embeds IndexerBuilder.configureField: reconfiguring a field is an error;
an empty container option is replaced by the default holder name; otherwise a
descriptor with the next dense field id is stored. -/
def IndexerBuilder.configureField (b : IndexerBuilder) (field : BEField) (opt : FieldOption) :
    IndexerBuilder × Except String FieldDesc :=
  match alookup field b.fieldsData with
  | some _ => (b, .error ("cant configure field twice:" ++ field))
  | none =>
    let opt2 := if opt.Container = "" then { opt with Container := HolderNameDefault } else opt
    let desc := newFieldDesc b field opt2
    ({ b with fieldsData := b.fieldsData ++ [(field, desc)] }, .ok desc)

/-- Embeds IndexerBuilder.createFieldData: return the existing descriptor, or
configure the field on the fly with the default container.  The on-the-fly
configuration cannot fail because the field is absent. -/
def IndexerBuilder.createFieldData (b : IndexerBuilder) (field : BEField) :
    IndexerBuilder × FieldDesc :=
  match alookup field b.fieldsData with
  | some desc => (b, desc)
  | none =>
    let desc := newFieldDesc b field { Parser := "", Container := HolderNameDefault }
    ({ b with fieldsData := b.fieldsData ++ [(field, desc)] }, desc)

/-- Embeds EntriesContainer.CreateHolder reached through newContainer(k):
ensure the default holder for the (size K, field id) slot exists and return
its slot.  Modelled from the spec: the container is a routing layer creating
the per-field holder on demand. -/
def IndexerBuilder.CreateHolder (b : IndexerBuilder) (k : Nat) (desc : FieldDesc) :
    IndexerBuilder × (Nat × Nat) :=
  let hk := (k, desc.ID)
  match alookup hk b.holders with
  | some _ => (b, hk)
  | none => ({ b with holders := b.holders ++ [(hk, {})] }, hk)

/-- Embeds indexBase.addWildcardEID: append the entry id to the Z set. -/
def IndexerBuilder.addWildcardEID (b : IndexerBuilder) (id : EntryID) : IndexerBuilder :=
  { b with wildcardEntries := b.wildcardEntries ++ [id] }

/-- Embeds the default holder IndexingBETx step for one expression.  Modelled
from the spec, mirroring the parse loop of AddFieldEID in entries_holder.go:
parse every value with ParseValue, concatenate the token ids in order, abort
with the first parser error. -/
def holderIndexingBETx (desc : FieldDesc) : List Value → Except String (List TokenID)
  | [] => .ok []
  | v :: rest =>
    match desc.Parser.ParseValue v with
    | .error e => .error e
    | .ok ids =>
      match holderIndexingBETx desc rest with
      | .error e => .error e
      | .ok more => .ok (ids ++ more)

/-- Embeds the inner expression loop of IndexerBuilder.indexingConjunction:
for each expression of one field, resolve the field descriptor, ensure the
holder, run the holder indexing step, and accumulate the transaction and the
opt-in count. -/
def indexingExprs (field : BEField) (k conjID : Nat) :
    IndexerBuilder → List Expression → List IndexingBETx → Nat →
    IndexerBuilder × Except String (List IndexingBETx × Nat)
  | b, [], txs, cnt => (b, .ok (txs, cnt))
  | b, expr :: rest, txs, cnt =>
    let p := b.createFieldData field
    let q := p.1.CreateHolder k p.2
    match holderIndexingBETx p.2 expr.ExprValues with
    | .error e => (q.1, .error ("indexing field:" ++ field ++ " fail:" ++ e))
    | .ok txData =>
      let eid := NewEntryID conjID expr.Incl
      let cnt2 := if txDataBetterToCache txData then cnt + 1 else cnt
      indexingExprs field k conjID q.1 rest
        (txs ++ [{ fieldD := p.2, holderKey := q.2, EID := eid, Data := txData }]) cnt2

/-- Embeds the outer field loop of IndexerBuilder.indexingConjunction. -/
def indexingFields (k conjID : Nat) :
    IndexerBuilder → Conjunction → List IndexingBETx → Nat →
    IndexerBuilder × Except String (List IndexingBETx × Nat)
  | b, [], txs, cnt => (b, .ok (txs, cnt))
  | b, fe :: rest, txs, cnt =>
    match indexingExprs fe.1 k conjID b fe.2 txs cnt with
    | (b2, .error e) => (b2, .error e)
    | (b2, .ok (txs2, cnt2)) => indexingFields k conjID b2 rest txs2 cnt2

/-- Embeds IndexerBuilder.indexingConjunction: run the per-field loops with
the size recovered from the conjunction id, and report whether any
transaction opted in to caching. -/
def IndexerBuilder.indexingConjunction (b : IndexerBuilder) (conj : Conjunction)
    (conjID : Nat) : IndexerBuilder × Except String (List IndexingBETx × Bool) :=
  match indexingFields (conjIDSize conjID) conjID b conj [] 0 with
  | (b2, .error e) => (b2, .error e)
  | (b2, .ok (txs, cnt)) => (b2, .ok (txs, cnt != 0))

/-- Embeds the default holder CommitIndexingBETx routed to the holder slot of
the transaction.  Modelled from the spec, mirroring the append loop of
AddFieldEID: every token id of the transaction data appends the entry id
under NewKey(field id, token id). -/
def IndexerBuilder.CommitIndexingBETx (b : IndexerBuilder) (tx : IndexingBETx) :
    IndexerBuilder :=
  let h := (alookup tx.holderKey b.holders).getD {}
  let h2 := tx.Data.foldl (fun acc id => acc.AppendEntryID (NewKey tx.fieldD.ID id) tx.EID) h
  { b with holders := aset tx.holderKey h2 b.holders }

/-- Commits a transaction list in order, as the commit loop at the end of
buildDocEntries does. -/
def commitTxs (b : IndexerBuilder) (txs : List IndexingBETx) : IndexerBuilder :=
  txs.foldl IndexerBuilder.CommitIndexingBETx b

/-- Embeds IndexerBuilder.tryCacheIndexingTx: build the per-field cache
message keyed by field name (later transactions of the same field overwrite
earlier ones), marshal it and store it under the conjunction id.  Encoding is
total in the model, so the early return on encode failure has no branch. -/
def IndexerBuilder.tryCacheIndexingTx (b : IndexerBuilder) (conjID : Nat)
    (txs : List IndexingBETx) : IndexerBuilder :=
  match b.builderCache with
  | none => b
  | some cacheMap =>
    let fd := txs.foldl
      (fun acc tx => aset tx.fieldD.Field { eid := tx.EID, data := some tx.Data } acc) []
    let msg : IndexingTxCache := { conjunctionId := conjID, fieldData := fd }
    { b with builderCache := some (aset conjID (protoMarshal msg) cacheMap) }

/-- Embeds the decode loop of IndexerBuilder.tryUseIndexingTxCache: for each
cached field record, resolve the descriptor, ensure the holder, decode the
payload, and rebuild the transaction; a decode failure returns none with the
state mutations so far kept. -/
def decodeTxLoop (conjID : Nat) :
    IndexerBuilder → List (BEField × FieldCache) → List IndexingBETx →
    IndexerBuilder × Option (List IndexingBETx)
  | b, [], acc => (b, some acc)
  | b, fc :: rest, acc =>
    let p := b.createFieldData fc.1
    let q := p.1.CreateHolder (conjIDSize conjID) p.2
    match DecodeTxData fc.2.data with
    | .error _ => (q.1, none)
    | .ok txData =>
      decodeTxLoop conjID q.1 rest
        (acc ++ [{ fieldD := p.2, holderKey := q.2, EID := fc.2.eid, Data := txData }])

/-- Embeds IndexerBuilder.tryUseIndexingTxCache: nil cache, a missed key, an
unmarshal failure or a decode failure yield none (the Go nil slice); a cached
conjunction with no field records also returns the nil slice. -/
def IndexerBuilder.tryUseIndexingTxCache (b : IndexerBuilder) (conjID : Nat) :
    IndexerBuilder × Option (List IndexingBETx) :=
  match b.builderCache with
  | none => (b, none)
  | some cacheMap =>
    match alookup conjID cacheMap with
    | none => (b, none)
    | some bytes =>
      match protoUnmarshal bytes with
      | .error _ => (b, none)
      | .ok txCache =>
        match decodeTxLoop conjID b txCache.fieldData [] with
        | (b2, none) => (b2, none)
        | (b2, some txs) => (b2, if txs.isEmpty then none else some txs)

/-- The wildcard step at the top of the conjunction loop of buildDocEntries:
a conjunction of include-size zero appends a wildcard entry id (include flag
true) for its conjunction id; the loop then falls through to indexing. -/
def wildcardAdjust (b : IndexerBuilder) (docID idx : Nat) (conj : Conjunction) :
    IndexerBuilder :=
  if conj.CalcConjSize = 0 then
    b.addWildcardEID (NewEntryID (NewConjID docID idx conj.CalcConjSize) true)
  else b

/-- The conjunction id the loop body of buildDocEntries builds for one
conjunction. -/
def conjIDOf (docID idx : Nat) (conj : Conjunction) : Nat :=
  NewConjID docID idx conj.CalcConjSize

/-- Embeds one iteration of the conjunction loop of buildDocEntries: the
wildcard step, the cache probe, recomputation with the failure policy switch
(skip, error, or panic for any other setting), optional caching, and the
commit loop. -/
def IndexerBuilder.processConj (b : IndexerBuilder) (docID idx : Nat) (conj : Conjunction) :
    BuildOutcome IndexerBuilder :=
  match (wildcardAdjust b docID idx conj).tryUseIndexingTxCache (conjIDOf docID idx conj) with
  | (b2, some txs) => .ok (commitTxs b2 txs)
  | (b2, none) =>
    match b2.indexingConjunction conj (conjIDOf docID idx conj) with
    | (b3, .error e) =>
      if b.badConjBehavior = SkipBadConj then .ok b3
      else if b.badConjBehavior = ErrorBadConj then .err b3 ("indexing conj fail:" ++ e)
      else .panicked ("indexing conj fail:" ++ e)
    | (b3, .ok (txs, needCache)) =>
      .ok (commitTxs
        (if needCache then b3.tryCacheIndexingTx (conjIDOf docID idx conj) txs else b3) txs)

/-- Embeds the conjunction loop of buildDocEntries: process the conjunctions
in order with their indices, propagating error and panic outcomes. -/
def conjLoop (docID : Nat) :
    IndexerBuilder → Nat → List Conjunction → BuildOutcome IndexerBuilder
  | b, _, [] => .ok b
  | b, idx, conj :: rest =>
    match b.processConj docID idx conj with
    | .ok b2 => conjLoop docID b2 (idx + 1) rest
    | .err st e => .err st e
    | .panicked m => .panicked m

/-- Embeds IndexerBuilder.buildDocEntries: the two entry assertions panic on
an invalid document, then the conjunction loop runs from index zero. -/
def IndexerBuilder.buildDocEntries (b : IndexerBuilder) (doc : Document) :
    BuildOutcome IndexerBuilder :=
  if doc.Cons.length = 0 then .panicked "no conjunctions in this document"
  else if 255 < doc.Cons.length then .panicked "number of conjunction need less than 256"
  else conjLoop doc.ID b 0 doc.Cons

/-- Embeds IndexerBuilder.validDocument: a document must hold between 1 and
255 conjunctions. -/
def IndexerBuilder.validDocument (doc : Document) : Option String :=
  if doc.Cons.length = 0 then some "no conjunctions in this document"
  else if 255 < doc.Cons.length then some "number of conjunction need less than 256"
  else none

/-- Embeds IndexerBuilder.AddDocument: documents are processed in order; the
first validation or build failure returns immediately, keeping the state
committed so far. -/
def IndexerBuilder.AddDocument (b : IndexerBuilder) : List Document → BuildOutcome IndexerBuilder
  | [] => .ok b
  | doc :: rest =>
    match IndexerBuilder.validDocument doc with
    | some e => .err b e
    | none =>
      match b.buildDocEntries doc with
      | .ok b2 => b2.AddDocument rest
      | .err st e => .err st e
      | .panicked m => .panicked m

/-- The posting list the index state holds for one (size K, field id) holder
slot and one key; an absent holder reads as an empty holder. -/
def postingOf (b : IndexerBuilder) (hk : Nat × Nat) (key : Key) : Entries :=
  ((alookup hk b.holders).getD {}).getEntries key

theorem foldl_runmax_le {α : Type} (g : α → Nat) (l : List α) (init : Nat) :
    init ≤ l.foldl (fun m x => if m < g x then g x else m) init := by
  induction l generalizing init with
  | nil => simp
  | cons x rest ih =>
    simp only [List.foldl_cons]
    have h1 : init ≤ (if init < g x then g x else init) := by split <;> omega
    exact le_trans h1 (ih _)

theorem foldl_runmax_mem_le {α : Type} (g : α → Nat) (l : List α) (init : Nat) :
    ∀ x ∈ l, g x ≤ l.foldl (fun m y => if m < g y then g y else m) init := by
  induction l generalizing init with
  | nil => simp
  | cons y rest ih =>
    intro x hx
    simp only [List.foldl_cons]
    rcases List.mem_cons.mp hx with h | h
    · subst h
      refine le_trans ?_ (foldl_runmax_le g rest _)
      split <;> omega
    · exact ih _ x h

theorem foldl_runmax_cases {α : Type} (g : α → Nat) (l : List α) (init : Nat) :
    l.foldl (fun m y => if m < g y then g y else m) init = init ∨
    ∃ x ∈ l, l.foldl (fun m y => if m < g y then g y else m) init = g x := by
  induction l generalizing init with
  | nil => left; rfl
  | cons y rest ih =>
    simp only [List.foldl_cons]
    rcases ih (if init < g y then g y else init) with h | ⟨x, hx, hh⟩
    · by_cases hy : init < g y
      · right
        exact ⟨y, List.mem_cons_self y rest, by rw [h]; simp [hy]⟩
      · left
        rw [h]
        simp [hy]
    · right
      exact ⟨x, List.mem_cons_of_mem _ hx, hh⟩

theorem foldl_addlen {α : Type} (g : α → Nat) (l : List α) (init : Nat) :
    l.foldl (fun t x => t + g x) init = init + (l.map g).sum := by
  induction l generalizing init with
  | nil => simp
  | cons x rest ih =>
    simp only [List.foldl_cons, List.map_cons, List.sum_cons]
    rw [ih]
    omega

/-- C2 (amended claim): AppendEntryID leaves exactly one appended copy.  For an
absent key the intermediate one-element store is immediately overwritten by the
append of the still-nil local slice, so the stored entries end as the single
element [id]; for a present key exactly one copy is appended at the end; other
keys are untouched. -/
theorem appendEntryID_appends_once (h : DefaultEntriesHolder) (key : Key) (id : EntryID) :
    alookup key (h.AppendEntryID key id).plEntries
      = some ((alookup key h.plEntries).getD [] ++ [id]) ∧
    ∀ k2, k2 ≠ key → alookup k2 (h.AppendEntryID key id).plEntries = alookup k2 h.plEntries := by
  unfold DefaultEntriesHolder.AppendEntryID
  cases hf : alookup key h.plEntries with
  | none =>
    refine ⟨by simp [hf, alookup_aset_self], ?_⟩
    intro k2 hk2
    simp only [hf, Option.isSome_none, Bool.false_eq_true, if_false, Option.getD_none]
    rw [alookup_aset_ne _ _ _ _ hk2, alookup_aset_ne _ _ _ _ hk2]
  | some es =>
    refine ⟨by simp [hf, alookup_aset_self], ?_⟩
    intro k2 hk2
    simp only [hf, Option.isSome_some, if_true, Option.getD_some]
    rw [alookup_aset_ne _ _ _ _ hk2]

/-- C2 counterexample: on an absent key the stored entries hold the EntryID
once, not twice, refuting the double-insert reading at key (1, 2), id 7 on an
empty holder. -/
theorem appendEntryID_first_insert_single_counterexample :
    (DefaultEntriesHolder.AppendEntryID {} (1, 2) 7).getEntries (1, 2) = [7] ∧
    ¬ ((DefaultEntriesHolder.AppendEntryID {} (1, 2) 7).getEntries (1, 2)).count 7 = 2 := by
  decide

/-- Witness for appendEntryID_appends_once at the empty holder, key (1, 2),
id 7, checking an unrelated key (0, 0) for the frame part. -/
theorem appendEntryID_appends_once_witness :
    alookup (1, 2) ((DefaultEntriesHolder.AppendEntryID {} (1, 2) 7).plEntries)
      = some ((alookup (1, 2) (({} : DefaultEntriesHolder).plEntries)).getD [] ++ [7]) ∧
    alookup ((0, 0) : Key) ((DefaultEntriesHolder.AppendEntryID {} (1, 2) 7).plEntries)
      = alookup (0, 0) (({} : DefaultEntriesHolder).plEntries) :=
  ⟨(appendEntryID_appends_once {} (1, 2) 7).1,
   (appendEntryID_appends_once {} (1, 2) 7).2 (0, 0) (by decide)⟩

/-- C3: after CompileEntries every stored posting list is sorted ascending
(pairwise, hence adjacent entries satisfy P i <= P (i+1)), maxLen is the
maximum posting-list length (starting from a zero maxLen), and avgLen is the
total entry count divided by the key count when a key is present, staying 0
on an empty map. -/
theorem compileEntries_sorted_stats (h : DefaultEntriesHolder)
    (hmax : h.maxLen = 0) (havg : h.avgLen = 0) :
    (∀ kv ∈ h.CompileEntries.plEntries, List.Sorted (fun a b => a ≤ b) kv.2) ∧
    (∀ kv ∈ h.CompileEntries.plEntries, kv.2.length ≤ h.CompileEntries.maxLen) ∧
    (h.CompileEntries.plEntries ≠ [] →
      ∃ kv ∈ h.CompileEntries.plEntries, kv.2.length = h.CompileEntries.maxLen) ∧
    (h.CompileEntries.plEntries = [] → h.CompileEntries.maxLen = 0) ∧
    (h.CompileEntries.plEntries ≠ [] →
      h.CompileEntries.avgLen =
        (h.CompileEntries.plEntries.map (fun kv => kv.2.length)).sum /
          h.CompileEntries.plEntries.length) ∧
    (h.CompileEntries.plEntries = [] → h.CompileEntries.avgLen = 0) := by
  unfold DefaultEntriesHolder.CompileEntries DefaultEntriesHolder.makeEntriesSorted
  simp only []
  refine ⟨?_, ?_, ?_, ?_, ?_, ?_⟩
  · intro kv hkv
    rcases List.mem_map.mp hkv with ⟨kv0, _, hkv0⟩
    rw [← hkv0]
    exact List.sorted_insertionSort _ _
  · intro kv hkv
    exact foldl_runmax_mem_le (fun kv => kv.2.length) _ _ kv hkv
  · intro hne
    rcases foldl_runmax_cases (fun kv => kv.2.length)
        (h.plEntries.map (fun kv => (kv.1, sortEntries kv.2))) h.maxLen with hc | ⟨x, hx, hh⟩
    · rcases List.exists_mem_of_ne_nil _ hne with ⟨kv0, hkv0⟩
      refine ⟨kv0, hkv0, ?_⟩
      have hle := foldl_runmax_mem_le (fun kv => kv.2.length)
        (h.plEntries.map (fun kv => (kv.1, sortEntries kv.2))) h.maxLen kv0 hkv0
      rw [hc] at hle
      have hle2 : kv0.2.length ≤ h.maxLen := hle
      rw [hc]
      omega
    · exact ⟨x, hx, hh.symm⟩
  · intro hempty
    rw [hempty]
    simp [hmax]
  · intro hne
    have hlen : 0 < (h.plEntries.map (fun kv => (kv.1, sortEntries kv.2))).length := by
      cases hpl : h.plEntries.map (fun kv => (kv.1, sortEntries kv.2)) with
      | nil => exact absurd hpl hne
      | cons kv0 rest => simp
    rw [if_pos hlen, foldl_addlen (fun kv => kv.2.length)
      (h.plEntries.map (fun kv => (kv.1, sortEntries kv.2))) 0]
    simp
  · intro hempty
    rw [hempty]
    simp [havg, hempty]

/-- Concrete holder used to witness the compilation statistics claim. -/
def holderC3 : DefaultEntriesHolder :=
  { debug := false, maxLen := 0, avgLen := 0,
    plEntries := [((0, 0), [3, 1, 2]), ((0, 1), [5])] }

/-- Witness for compileEntries_sorted_stats at a concrete two-key holder. -/
theorem compileEntries_sorted_stats_witness :
    ∃ kv ∈ holderC3.CompileEntries.plEntries,
      kv.2.length = holderC3.CompileEntries.maxLen :=
  (compileEntries_sorted_stats holderC3 rfl rfl).2.2.1 (by decide)

/-- Tests whether an Except value is a success. -/
def Except.isOkQ {ε α : Type} : Except ε α → Bool
  | .ok _ => true
  | _ => false

/-- C8: configureField assigns the next dense field id (the count of already
configured fields), replaces an empty container option by the default holder
name, and appends the binding; reconfiguring an existing field fails and
leaves fieldsData unchanged. -/
theorem configureField_dense_ids (b : IndexerBuilder) (field : BEField) (opt : FieldOption) :
    (alookup field b.fieldsData = none →
      ∃ desc,
        b.configureField field opt =
          ({ b with fieldsData := b.fieldsData ++ [(field, desc)] }, .ok desc) ∧
        desc.ID = b.fieldsData.length ∧
        desc.opt.Container =
          (if opt.Container = "" then HolderNameDefault else opt.Container)) ∧
    (∀ d, alookup field b.fieldsData = some d →
      (b.configureField field opt).1 = b ∧
      (b.configureField field opt).2.isOkQ = false) := by
  constructor
  · intro habs
    unfold IndexerBuilder.configureField
    rw [habs]
    refine ⟨newFieldDesc b field
      (if opt.Container = "" then { opt with Container := HolderNameDefault } else opt),
      rfl, rfl, ?_⟩
    by_cases hc : opt.Container = "" <;> simp [newFieldDesc, hc]
  · intro d hd
    unfold IndexerBuilder.configureField
    rw [hd]
    exact ⟨rfl, rfl⟩

/-- Concrete parser mapping a value to its absolute value as single token. -/
def idTokenParser : FieldValueParser :=
  { ParseValue := fun v => .ok [v.natAbs], ParseAssign := fun v => .ok [v.natAbs] }

/-- Concrete parser failing on every value. -/
def failParser : FieldValueParser :=
  { ParseValue := fun _ => .error "boom", ParseAssign := fun _ => .error "boom" }

/-- Fresh builder with a uniform parser registry, a failure policy and an
optional cache, as NewIndexerBuilder produces before any configuration. -/
def emptyBuilder (p : FieldValueParser) (behavior : Int) (cache : Option CacheMap) :
    IndexerBuilder :=
  { parserOf := fun _ => p, fieldsData := [], badConjBehavior := behavior,
    builderCache := cache, wildcardEntries := [], holders := [] }

/-- Concrete builder used to witness the field-configuration claim. -/
def builderC8 : IndexerBuilder := emptyBuilder idTokenParser ErrorBadConj none

/-- Witness for configureField_dense_ids: on a fresh builder the first field
gets id 0 and the empty container option becomes the default holder name. -/
theorem configureField_dense_ids_witness :
    ∃ desc,
      builderC8.configureField "user" { Parser := "", Container := "" } =
        ({ builderC8 with fieldsData := builderC8.fieldsData ++ [("user", desc)] },
          .ok desc) ∧
      desc.ID = builderC8.fieldsData.length ∧
      desc.opt.Container =
        (if ("" : String) = "" then HolderNameDefault else "") :=
  (configureField_dense_ids builderC8 "user" { Parser := "", Container := "" }).1 rfl

/-- C5 (amended claim): validDocument rejects a document exactly when its
conjunction count is 0 or above 255, and a validation failure makes
AddDocument return that error with the builder state untouched (nothing
committed for the document).  AddDocument can additionally fail later when
conjunction indexing fails, so validation failure is not the only error
source. -/
theorem validDocument_range (b : IndexerBuilder) (doc : Document) :
    (((IndexerBuilder.validDocument doc).isSome = true) ↔
      (doc.Cons.length = 0 ∨ 255 < doc.Cons.length)) ∧
    (∀ e, IndexerBuilder.validDocument doc = some e →
      b.AddDocument [doc] = .err b e) := by
  constructor
  · unfold IndexerBuilder.validDocument
    by_cases h0 : doc.Cons.length = 0
    · simp [h0]
    · by_cases h255 : 255 < doc.Cons.length
      · simp [h0, h255]
      · simp [h0, h255]
  · intro e he
    unfold IndexerBuilder.AddDocument
    rw [he]

/-- Concrete document with 256 conjunctions, above the ceiling. -/
def doc256 : Document := { ID := 1, Cons := List.replicate 256 [] }

/-- Concrete builder whose registry resolves every parser name to the failing
parser, with the Error failure policy. -/
def builderC5 : IndexerBuilder := emptyBuilder failParser ErrorBadConj none

/-- Witness for validDocument_range: a 256-conjunction document is rejected
and AddDocument returns the validation error without touching the builder. -/
theorem validDocument_range_witness :
    ((IndexerBuilder.validDocument doc256).isSome = true) ∧
    builderC5.AddDocument [doc256] =
      .err builderC5 "number of conjunction need less than 256" :=
  ⟨(validDocument_range builderC5 doc256).1.mpr (Or.inr (by decide)),
   (validDocument_range builderC5 doc256).2 "number of conjunction need less than 256"
     (by decide)⟩

/-- Concrete one-conjunction document whose expression values make the failing
parser abort indexing. -/
def docC5 : Document :=
  { ID := 3, Cons := [[("A", [{ Incl := true, ExprValues := [1] }])]] }

/-- C5 counterexample: a document with one conjunction (inside the 1..255
validation range) still makes AddDocument return an error when indexing fails
under the Error policy, refuting that errors happen exactly on out-of-range
conjunction counts. -/
theorem addDocument_error_within_range_counterexample :
    docC5.Cons.length = 1 ∧ (builderC5.AddDocument [docC5]).isErr = true := by
  exact ⟨rfl, rfl⟩

/-- Follows the spec words for GetEntries on one query value: parse the value
to token ids; for each id look up the posting list; each non-empty list yields
one cursor tagged with the query-side key QKey(field, value). -/
def specCursorsForValue (h : DefaultEntriesHolder) (field : FieldDesc) (vi : Value) :
    CursorGroup :=
  match field.Parser.ParseAssign vi with
  | .error _ => []
  | .ok ids => ids.filterMap (fun id =>
      let entries := h.getEntries (NewKey field.ID id)
      if 0 < entries.length then some (NewEntriesCursor (newQKey field.Field vi) entries)
      else none)

/-- Follows the spec words for GetEntries: aggregate the per-value cursors in
query order; the first parse error aborts the query and no partial cursor
group is returned. -/
def specGetEntries (h : DefaultEntriesHolder) (field : FieldDesc) :
    List Value → Except String CursorGroup
  | [] => .ok []
  | vi :: rest =>
    match field.Parser.ParseAssign vi with
    | .error e => .error e
    | .ok _ =>
      match specGetEntries h field rest with
      | .error e => .error e
      | .ok cg => .ok (specCursorsForValue h field vi ++ cg)

theorem cursor_foldl_eq (h : DefaultEntriesHolder) (field : FieldDesc) (vi : Value)
    (ids : List TokenID) (r : CursorGroup) :
    ids.foldl (fun acc id =>
      let key := NewKey field.ID id
      let entries := h.getEntries key
      if 0 < entries.length then acc ++ [NewEntriesCursor (newQKey field.Field vi) entries]
      else acc) r
    = r ++ ids.filterMap (fun id =>
        let entries := h.getEntries (NewKey field.ID id)
        if 0 < entries.length then some (NewEntriesCursor (newQKey field.Field vi) entries)
        else none) := by
  induction ids generalizing r with
  | nil => simp
  | cons id rest ih =>
    simp only [List.foldl_cons, List.filterMap_cons]
    by_cases hl : 0 < (h.getEntries (NewKey field.ID id)).length
    · simp only [hl, if_pos]
      rw [ih]
      simp
    · simp only [hl, if_neg]
      rw [ih]
      simp [hl]

theorem getEntriesLoop_spec (h : DefaultEntriesHolder) (field : FieldDesc) :
    ∀ (assigns : List Value) (r : CursorGroup),
      h.GetEntriesLoop field assigns r =
        match specGetEntries h field assigns with
        | .error e => .error e
        | .ok cg => .ok (r ++ cg) := by
  intro assigns
  induction assigns with
  | nil =>
    intro r
    simp [DefaultEntriesHolder.GetEntriesLoop, specGetEntries]
  | cons vi rest ih =>
    intro r
    cases hp : field.Parser.ParseAssign vi with
    | error e =>
      simp [DefaultEntriesHolder.GetEntriesLoop, specGetEntries, hp]
    | ok ids =>
      simp only [DefaultEntriesHolder.GetEntriesLoop, specGetEntries, hp]
      rw [cursor_foldl_eq, ih]
      cases hs : specGetEntries h field rest with
      | error e => simp
      | ok cg => simp [specCursorsForValue, hp, List.append_assoc]

/-- C6: DefaultEntriesHolder.GetEntries agrees with the spec description: one
cursor per parsed token id with a non-empty posting list (absent keys and
empty lists skipped), tagged QKey(field, value), aggregated over the query
values in order; a parse failure aborts with that error and no partial group. -/
theorem getEntries_matches_spec (h : DefaultEntriesHolder) (field : FieldDesc)
    (assigns : Values) :
    h.GetEntries field assigns = specGetEntries h field assigns := by
  unfold DefaultEntriesHolder.GetEntries
  rw [getEntriesLoop_spec]
  cases specGetEntries h field assigns <;> simp

/-- Statement-by-statement embedding of GetEntries threading the receiver
through every step, making the frame effect of the method visible: every
iteration passes the holder state along unchanged because the body only
reads it. -/
def DefaultEntriesHolder.GetEntriesSt (field : FieldDesc) :
    DefaultEntriesHolder → List Value → CursorGroup →
    DefaultEntriesHolder × Except String CursorGroup
  | h, [], r => (h, .ok r)
  | h, vi :: rest, r =>
    match field.Parser.ParseAssign vi with
    | .error e => (h, .error e)
    | .ok ids =>
      let hr := ids.foldl (fun hr id =>
        let key := NewKey field.ID id
        let entries := hr.1.getEntries key
        if 0 < entries.length then
          (hr.1, hr.2 ++ [NewEntriesCursor (newQKey field.Field vi) entries])
        else hr) (h, r)
      GetEntriesSt field hr.1 rest hr.2

theorem getEntriesSt_foldl (field : FieldDesc) (vi : Value) (h : DefaultEntriesHolder)
    (ids : List TokenID) (r : CursorGroup) :
    ids.foldl (fun hr id =>
      if 0 < (hr.1.getEntries (NewKey field.ID id)).length then
        (hr.1, hr.2 ++ [NewEntriesCursor (newQKey field.Field vi)
          (hr.1.getEntries (NewKey field.ID id))])
      else hr) ((h, r) : DefaultEntriesHolder × CursorGroup)
    = (h, ids.foldl (fun acc id =>
        if 0 < (h.getEntries (NewKey field.ID id)).length then
          acc ++ [NewEntriesCursor (newQKey field.Field vi)
            (h.getEntries (NewKey field.ID id))]
        else acc) r) := by
  induction ids generalizing r with
  | nil => rfl
  | cons id rest ih =>
    simp only [List.foldl_cons]
    by_cases hl : 0 < (h.getEntries (NewKey field.ID id)).length
    · simp only [hl, if_pos]
      exact ih _
    · simp only [hl, if_neg]
      exact ih _

theorem getEntriesSt_eq (field : FieldDesc) :
    ∀ (assigns : List Value) (h : DefaultEntriesHolder) (r : CursorGroup),
      DefaultEntriesHolder.GetEntriesSt field h assigns r
        = (h, h.GetEntriesLoop field assigns r) := by
  intro assigns
  induction assigns with
  | nil => intro h r; rfl
  | cons vi rest ih =>
    intro h r
    simp only [DefaultEntriesHolder.GetEntriesSt, DefaultEntriesHolder.GetEntriesLoop]
    cases hp : field.Parser.ParseAssign vi with
    | error e => rfl
    | ok ids =>
      dsimp only
      rw [getEntriesSt_foldl]
      exact ih h _

/-- C9: GetEntries does not mutate the holder.  In the state-threaded
embedding the holder coming out of the call is the one that went in (hence
plEntries with every key and entries slice, maxLen, avgLen and debug are all
unchanged), with or without an error, and the produced result is exactly
GetEntries. -/
theorem getEntries_no_mutation (h : DefaultEntriesHolder) (field : FieldDesc)
    (assigns : Values) :
    (DefaultEntriesHolder.GetEntriesSt field h assigns []).1 = h ∧
    (DefaultEntriesHolder.GetEntriesSt field h assigns []).1.plEntries = h.plEntries ∧
    (DefaultEntriesHolder.GetEntriesSt field h assigns []).1.maxLen = h.maxLen ∧
    (DefaultEntriesHolder.GetEntriesSt field h assigns []).1.avgLen = h.avgLen ∧
    (DefaultEntriesHolder.GetEntriesSt field h assigns []).1.debug = h.debug ∧
    (DefaultEntriesHolder.GetEntriesSt field h assigns []).2 = h.GetEntries field assigns := by
  rw [getEntriesSt_eq]
  exact ⟨rfl, rfl, rfl, rfl, rfl, rfl⟩

theorem appendEntryID_getEntries (h : DefaultEntriesHolder) (key key2 : Key) (id : EntryID) :
    (h.AppendEntryID key id).getEntries key2
      = if key2 = key then h.getEntries key ++ [id] else h.getEntries key2 := by
  unfold DefaultEntriesHolder.AppendEntryID DefaultEntriesHolder.getEntries
  by_cases he : key2 = key
  · subst he
    cases hf : alookup key2 h.plEntries with
    | none => simp [hf, alookup_aset_self]
    | some es => simp [hf, alookup_aset_self]
  · cases hf : alookup key h.plEntries with
    | none =>
      simp only [hf, Option.isSome_none, Bool.false_eq_true, if_false, if_neg he,
        Option.getD_none]
      rw [alookup_aset_ne _ _ _ _ he, alookup_aset_ne _ _ _ _ he]
    | some es =>
      simp only [hf, Option.isSome_some, if_true, if_neg he, Option.getD_some]
      rw [alookup_aset_ne _ _ _ _ he]

/-- Well-formed field registry: every binding stores a descriptor carrying the
bound field name, as configureField and createFieldData always produce. -/
def fdWf (b : IndexerBuilder) : Prop :=
  ∀ f d, alookup f b.fieldsData = some d → d.Field = f

/-- Frame relation between builder states for the indexing phase: posting
lists, wildcard entries, the cache and the failure policy are untouched, the
field registry and the holder table only gain bindings, and registry
well-formedness is preserved. -/
def buildFrame (b c : IndexerBuilder) : Prop :=
  (∀ hk key, postingOf c hk key = postingOf b hk key) ∧
  c.wildcardEntries = b.wildcardEntries ∧
  c.builderCache = b.builderCache ∧
  c.badConjBehavior = b.badConjBehavior ∧
  (∀ f d, alookup f b.fieldsData = some d → alookup f c.fieldsData = some d) ∧
  (∀ hk, (alookup hk b.holders).isSome = true → (alookup hk c.holders).isSome = true) ∧
  (fdWf b → fdWf c)

theorem buildFrame_refl (b : IndexerBuilder) : buildFrame b b :=
  ⟨fun _ _ => rfl, rfl, rfl, rfl, fun _ _ h => h, fun _ h => h, fun h => h⟩

theorem buildFrame_trans {a b c : IndexerBuilder} (h1 : buildFrame a b)
    (h2 : buildFrame b c) : buildFrame a c :=
  ⟨fun hk key => (h2.1 hk key).trans (h1.1 hk key),
   h2.2.1.trans h1.2.1,
   h2.2.2.1.trans h1.2.2.1,
   h2.2.2.2.1.trans h1.2.2.2.1,
   fun f d h => h2.2.2.2.2.1 f d (h1.2.2.2.2.1 f d h),
   fun hk h => h2.2.2.2.2.2.1 hk (h1.2.2.2.2.2.1 hk h),
   fun h => h2.2.2.2.2.2.2 (h1.2.2.2.2.2.2 h)⟩

theorem alookup_single {κ ν : Type} [DecidableEq κ] (k k2 : κ) (v : ν) :
    alookup k2 [(k, v)] = if k2 = k then some v else none := by
  by_cases h : k2 = k <;> simp [alookup, h]

theorem buildFrame_createFieldData (b : IndexerBuilder) (f : BEField) :
    buildFrame b (b.createFieldData f).1 := by
  unfold IndexerBuilder.createFieldData
  cases hf : alookup f b.fieldsData with
  | some d => exact buildFrame_refl b
  | none =>
    refine ⟨fun _ _ => rfl, rfl, rfl, rfl, ?_, fun _ h => h, ?_⟩
    · intro f2 d2 h2
      exact alookup_append_some _ _ _ _ h2
    · intro hwf f2 d2 h2
      by_cases hf2 : alookup f2 b.fieldsData = none
      · rw [alookup_append_none _ _ _ hf2] at h2
        rw [alookup_single] at h2
        by_cases he : f2 = f
        · simp [he] at h2
          rw [← h2]
          simp [newFieldDesc, he]
        · simp [he] at h2
      · cases hf3 : alookup f2 b.fieldsData with
        | none => exact absurd hf3 hf2
        | some d3 =>
          rw [alookup_append_some _ _ _ _ hf3] at h2
          injection h2 with h2
          rw [← h2]
          exact hwf f2 d3 hf3

theorem createFieldData_self (b : IndexerBuilder) (f : BEField) (hwf : fdWf b) :
    (b.createFieldData f).2.Field = f ∧
    alookup f (b.createFieldData f).1.fieldsData = some (b.createFieldData f).2 := by
  unfold IndexerBuilder.createFieldData
  cases hf : alookup f b.fieldsData with
  | some d => exact ⟨hwf f d hf, hf⟩
  | none =>
    constructor
    · rfl
    · rw [alookup_append_none _ _ _ hf, alookup_single]
      simp

theorem createHolder_key (b : IndexerBuilder) (k : Nat) (d : FieldDesc) :
    (b.CreateHolder k d).2 = (k, d.ID) := by
  unfold IndexerBuilder.CreateHolder
  dsimp only
  cases hf : alookup ((k, d.ID) : Nat × Nat) b.holders <;> simp [hf]

theorem createHolder_fieldsData (b : IndexerBuilder) (k : Nat) (d : FieldDesc) :
    (b.CreateHolder k d).1.fieldsData = b.fieldsData := by
  unfold IndexerBuilder.CreateHolder
  dsimp only
  cases hf : alookup ((k, d.ID) : Nat × Nat) b.holders <;> simp [hf]

theorem createHolder_self (b : IndexerBuilder) (k : Nat) (d : FieldDesc) :
    (alookup ((k, d.ID) : Nat × Nat) (b.CreateHolder k d).1.holders).isSome = true := by
  unfold IndexerBuilder.CreateHolder
  dsimp only
  cases hf : alookup ((k, d.ID) : Nat × Nat) b.holders with
  | some h0 => simp [hf]
  | none =>
    simp only [hf]
    rw [alookup_append_none _ _ _ hf, alookup_single]
    simp

theorem buildFrame_createHolder (b : IndexerBuilder) (k : Nat) (d : FieldDesc) :
    buildFrame b (b.CreateHolder k d).1 := by
  unfold IndexerBuilder.CreateHolder
  dsimp only
  cases hf : alookup ((k, d.ID) : Nat × Nat) b.holders with
  | some h0 => exact buildFrame_refl b
  | none =>
    refine ⟨?_, rfl, rfl, rfl, fun _ _ h => h, ?_, fun h => h⟩
    · intro hk key
      unfold postingOf
      dsimp only
      cases hh : alookup hk b.holders with
      | some h1 => rw [alookup_append_some _ _ _ _ hh]
      | none =>
        rw [alookup_append_none _ _ _ hh, alookup_single]
        by_cases he : hk = (k, d.ID)
        · simp [he, DefaultEntriesHolder.getEntries, alookup]
        · simp [he]
    · intro hk hh
      dsimp only
      cases hh2 : alookup hk b.holders with
      | none => rw [hh2] at hh; simp at hh
      | some h1 =>
        rw [alookup_append_some _ _ _ _ hh2]
        rfl

theorem buildFrame_indexingExprs (field : BEField) (k conjID : Nat) :
    ∀ (exprs : List Expression) (b : IndexerBuilder) (txs : List IndexingBETx) (cnt : Nat),
      buildFrame b (indexingExprs field k conjID b exprs txs cnt).1 := by
  intro exprs
  induction exprs with
  | nil => intro b txs cnt; exact buildFrame_refl b
  | cons expr rest ih =>
    intro b txs cnt
    simp only [indexingExprs]
    have hstep : buildFrame b ((b.createFieldData field).1.CreateHolder k
        (b.createFieldData field).2).1 :=
      buildFrame_trans (buildFrame_createFieldData b field)
        (buildFrame_createHolder _ k _)
    cases hp : holderIndexingBETx (b.createFieldData field).2 expr.ExprValues with
    | error e => exact hstep
    | ok txData => exact buildFrame_trans hstep (ih _ _ _)

theorem buildFrame_indexingFields (k conjID : Nat) :
    ∀ (conj : Conjunction) (b : IndexerBuilder) (txs : List IndexingBETx) (cnt : Nat),
      buildFrame b (indexingFields k conjID b conj txs cnt).1 := by
  intro conj
  induction conj with
  | nil => intro b txs cnt; exact buildFrame_refl b
  | cons fe rest ih =>
    intro b txs cnt
    simp only [indexingFields]
    cases hx : indexingExprs fe.1 k conjID b fe.2 txs cnt with
    | mk b2 res =>
      have hb2 : buildFrame b b2 := by
        have := buildFrame_indexingExprs fe.1 k conjID fe.2 b txs cnt
        rw [hx] at this
        exact this
      cases res with
      | error e => exact hb2
      | ok p =>
        cases p with
        | mk txs2 cnt2 => exact buildFrame_trans hb2 (ih _ _ _)

theorem buildFrame_indexingConjunction (b : IndexerBuilder) (conj : Conjunction)
    (conjID : Nat) : buildFrame b (b.indexingConjunction conj conjID).1 := by
  unfold IndexerBuilder.indexingConjunction
  cases hx : indexingFields (conjIDSize conjID) conjID b conj [] 0 with
  | mk b2 res =>
    have hb2 : buildFrame b b2 := by
      have := buildFrame_indexingFields (conjIDSize conjID) conjID conj b [] 0
      rw [hx] at this
      exact this
    cases res with
    | error e => exact hb2
    | ok p => cases p with | mk txs cnt => exact hb2

theorem buildFrame_decodeTxLoop (conjID : Nat) :
    ∀ (fd : List (BEField × FieldCache)) (b : IndexerBuilder) (acc : List IndexingBETx),
      buildFrame b (decodeTxLoop conjID b fd acc).1 := by
  intro fd
  induction fd with
  | nil => intro b acc; exact buildFrame_refl b
  | cons fc rest ih =>
    intro b acc
    simp only [decodeTxLoop]
    have hstep : buildFrame b ((b.createFieldData fc.1).1.CreateHolder (conjIDSize conjID)
        (b.createFieldData fc.1).2).1 :=
      buildFrame_trans (buildFrame_createFieldData b fc.1)
        (buildFrame_createHolder _ _ _)
    cases hp : DecodeTxData fc.2.data with
    | error e => exact hstep
    | ok txData => exact buildFrame_trans hstep (ih _ _)

theorem buildFrame_tryUseIndexingTxCache (b : IndexerBuilder) (conjID : Nat) :
    buildFrame b (b.tryUseIndexingTxCache conjID).1 := by
  unfold IndexerBuilder.tryUseIndexingTxCache
  split
  · exact buildFrame_refl b
  · split
    · exact buildFrame_refl b
    · split
      · exact buildFrame_refl b
      · rename_i u1 txCache hun
        split
        · rename_i b2 heq
          have hfr := buildFrame_decodeTxLoop conjID txCache.fieldData b []
          rw [heq] at hfr
          exact hfr
        · rename_i b2 txs heq
          have hfr := buildFrame_decodeTxLoop conjID txCache.fieldData b []
          rw [heq] at hfr
          exact hfr

theorem tryCacheIndexingTx_frame (b : IndexerBuilder) (conjID : Nat)
    (txs : List IndexingBETx) :
    (b.tryCacheIndexingTx conjID txs).holders = b.holders ∧
    (b.tryCacheIndexingTx conjID txs).wildcardEntries = b.wildcardEntries ∧
    (b.tryCacheIndexingTx conjID txs).fieldsData = b.fieldsData ∧
    (b.tryCacheIndexingTx conjID txs).badConjBehavior = b.badConjBehavior := by
  unfold IndexerBuilder.tryCacheIndexingTx
  cases b.builderCache <;> exact ⟨rfl, rfl, rfl, rfl⟩

theorem tryCacheIndexingTx_of_none (b : IndexerBuilder) (conjID : Nat)
    (txs : List IndexingBETx) (h : b.builderCache = none) :
    b.tryCacheIndexingTx conjID txs = b := by
  unfold IndexerBuilder.tryCacheIndexingTx
  rw [h]

theorem tryUseIndexingTxCache_of_none (b : IndexerBuilder) (conjID : Nat)
    (h : b.builderCache = none) :
    b.tryUseIndexingTxCache conjID = (b, none) := by
  unfold IndexerBuilder.tryUseIndexingTxCache
  rw [h]

/-- Growth relation between builder states along document processing: the
wildcard set and every posting list are only ever extended at the end. -/
def stGrows (b c : IndexerBuilder) : Prop :=
  (∃ t, c.wildcardEntries = b.wildcardEntries ++ t) ∧
  ∀ hk key, ∃ t, postingOf c hk key = postingOf b hk key ++ t

theorem stGrows_refl (b : IndexerBuilder) : stGrows b b :=
  ⟨⟨[], by simp⟩, fun hk key => ⟨[], by simp⟩⟩

theorem stGrows_trans {a b c : IndexerBuilder} (h1 : stGrows a b) (h2 : stGrows b c) :
    stGrows a c := by
  constructor
  · rcases h1.1 with ⟨t1, ht1⟩
    rcases h2.1 with ⟨t2, ht2⟩
    exact ⟨t1 ++ t2, by rw [ht2, ht1, List.append_assoc]⟩
  · intro hk key
    rcases h1.2 hk key with ⟨t1, ht1⟩
    rcases h2.2 hk key with ⟨t2, ht2⟩
    exact ⟨t1 ++ t2, by rw [ht2, ht1, List.append_assoc]⟩

theorem buildFrame_stGrows {b c : IndexerBuilder} (h : buildFrame b c) : stGrows b c :=
  ⟨⟨[], by rw [h.2.1]; simp⟩, fun hk key => ⟨[], by rw [h.1 hk key]; simp⟩⟩

theorem appendFold_getEntries_grows (fid : Nat) (eid : EntryID) :
    ∀ (ds : List TokenID) (h : DefaultEntriesHolder) (key : Key), ∃ t,
      (ds.foldl (fun acc id => acc.AppendEntryID (NewKey fid id) eid) h).getEntries key
        = h.getEntries key ++ t := by
  intro ds
  induction ds with
  | nil => intro h key; exact ⟨[], by simp⟩
  | cons d rest ih =>
    intro h key
    simp only [List.foldl_cons]
    rcases ih (h.AppendEntryID (NewKey fid d) eid) key with ⟨t1, ht1⟩
    rw [ht1, appendEntryID_getEntries]
    by_cases he : key = NewKey fid d
    · subst he
      exact ⟨[eid] ++ t1, by simp⟩
    · exact ⟨t1, by simp [he]⟩

theorem commitIndexingBETx_grows (b : IndexerBuilder) (tx : IndexingBETx) :
    stGrows b (b.CommitIndexingBETx tx) := by
  unfold IndexerBuilder.CommitIndexingBETx
  constructor
  · exact ⟨[], by simp⟩
  · intro hk key
    dsimp only
    by_cases he : hk = tx.holderKey
    · subst he
      unfold postingOf
      rw [alookup_aset_self]
      rcases appendFold_getEntries_grows tx.fieldD.ID tx.EID tx.Data
          ((alookup tx.holderKey b.holders).getD {}) key with ⟨t, ht⟩
      exact ⟨t, by simpa using ht⟩
    · unfold postingOf
      rw [alookup_aset_ne _ _ _ _ he]
      exact ⟨[], by simp⟩

theorem commitTxs_grows (b : IndexerBuilder) (txs : List IndexingBETx) :
    stGrows b (commitTxs b txs) := by
  unfold commitTxs
  induction txs generalizing b with
  | nil => exact stGrows_refl b
  | cons tx rest ih =>
    simp only [List.foldl_cons]
    exact stGrows_trans (commitIndexingBETx_grows b tx) (ih _)

theorem commitTxs_wildcard (b : IndexerBuilder) (txs : List IndexingBETx) :
    (commitTxs b txs).wildcardEntries = b.wildcardEntries := by
  unfold commitTxs
  induction txs generalizing b with
  | nil => rfl
  | cons tx rest ih =>
    simp only [List.foldl_cons]
    rw [ih]
    rfl

theorem commitTxs_cache (b : IndexerBuilder) (txs : List IndexingBETx) :
    (commitTxs b txs).builderCache = b.builderCache := by
  unfold commitTxs
  induction txs generalizing b with
  | nil => rfl
  | cons tx rest ih =>
    simp only [List.foldl_cons]
    rw [ih]
    rfl

theorem wildcardAdjust_grows (b : IndexerBuilder) (docID idx : Nat) (conj : Conjunction) :
    stGrows b (wildcardAdjust b docID idx conj) := by
  unfold wildcardAdjust
  split
  · exact ⟨⟨[NewEntryID (NewConjID docID idx conj.CalcConjSize) true], rfl⟩,
      fun hk key => ⟨[], by simp [IndexerBuilder.addWildcardEID, postingOf]⟩⟩
  · exact stGrows_refl b

theorem wildcardAdjust_cache (b : IndexerBuilder) (docID idx : Nat) (conj : Conjunction) :
    (wildcardAdjust b docID idx conj).builderCache = b.builderCache := by
  unfold wildcardAdjust
  split <;> rfl

theorem wildcardAdjust_behavior (b : IndexerBuilder) (docID idx : Nat) (conj : Conjunction) :
    (wildcardAdjust b docID idx conj).badConjBehavior = b.badConjBehavior := by
  unfold wildcardAdjust
  split <;> rfl

theorem wildcardAdjust_holders (b : IndexerBuilder) (docID idx : Nat) (conj : Conjunction) :
    (wildcardAdjust b docID idx conj).holders = b.holders := by
  unfold wildcardAdjust
  split <;> rfl


/-- Growth along a build outcome: successful and error returns keep every
previously committed entry; a panic unwinds the process. -/
def outcomeGrows (b : IndexerBuilder) : BuildOutcome IndexerBuilder → Prop
  | .ok c => stGrows b c
  | .err c _ => stGrows b c
  | .panicked _ => True

theorem processConj_grows (b : IndexerBuilder) (docID idx : Nat) (conj : Conjunction) :
    outcomeGrows b (b.processConj docID idx conj) := by
  have hb1 : stGrows b (wildcardAdjust b docID idx conj) :=
    wildcardAdjust_grows b docID idx conj
  unfold IndexerBuilder.processConj
  cases htu : (wildcardAdjust b docID idx conj).tryUseIndexingTxCache
      (conjIDOf docID idx conj) with
  | mk b2 otxs =>
    have h2 : buildFrame (wildcardAdjust b docID idx conj) b2 := by
      have := buildFrame_tryUseIndexingTxCache (wildcardAdjust b docID idx conj)
        (conjIDOf docID idx conj)
      rw [htu] at this
      exact this
    have hgb2 : stGrows b b2 := stGrows_trans hb1 (buildFrame_stGrows h2)
    cases otxs with
    | some txs =>
      show outcomeGrows b (.ok (commitTxs b2 txs))
      exact stGrows_trans hgb2 (commitTxs_grows b2 txs)
    | none =>
      show outcomeGrows b
        (match b2.indexingConjunction conj (conjIDOf docID idx conj) with
         | (b3, .error e) =>
           if b.badConjBehavior = SkipBadConj then BuildOutcome.ok b3
           else if b.badConjBehavior = ErrorBadConj then
             BuildOutcome.err b3 ("indexing conj fail:" ++ e)
           else BuildOutcome.panicked ("indexing conj fail:" ++ e)
         | (b3, .ok (txs, needCache)) =>
           BuildOutcome.ok (commitTxs
             (if needCache then b3.tryCacheIndexingTx (conjIDOf docID idx conj) txs else b3)
             txs))
      cases hic : b2.indexingConjunction conj (conjIDOf docID idx conj) with
      | mk b3 res =>
        have h3 : buildFrame b2 b3 := by
          have := buildFrame_indexingConjunction b2 conj (conjIDOf docID idx conj)
          rw [hic] at this
          exact this
        have hgb3 : stGrows b b3 := stGrows_trans hgb2 (buildFrame_stGrows h3)
        cases res with
        | error e =>
          show outcomeGrows b
            (if b.badConjBehavior = SkipBadConj then .ok b3
             else if b.badConjBehavior = ErrorBadConj then
               .err b3 ("indexing conj fail:" ++ e)
             else .panicked ("indexing conj fail:" ++ e))
          split
          · exact hgb3
          · split
            · exact hgb3
            · trivial
        | ok p =>
          cases p with
          | mk txs needCache =>
            show outcomeGrows b (.ok (commitTxs
              (if needCache then b3.tryCacheIndexingTx (conjIDOf docID idx conj) txs
               else b3) txs))
            have h4 : stGrows b3
                (if needCache then b3.tryCacheIndexingTx (conjIDOf docID idx conj) txs
                 else b3) := by
              split
              · rcases tryCacheIndexingTx_frame b3 (conjIDOf docID idx conj) txs with
                  ⟨hh, hw, _, _⟩
                exact ⟨⟨[], by rw [hw]; simp⟩,
                  fun hk key => ⟨[], by unfold postingOf; rw [hh]; simp⟩⟩
              · exact stGrows_refl b3
            exact stGrows_trans hgb3 (stGrows_trans h4 (commitTxs_grows _ txs))

theorem conjLoop_grows (docID : Nat) :
    ∀ (conjs : List Conjunction) (b : IndexerBuilder) (idx : Nat),
      outcomeGrows b (conjLoop docID b idx conjs) := by
  intro conjs
  induction conjs with
  | nil => intro b idx; exact stGrows_refl b
  | cons conj rest ih =>
    intro b idx
    simp only [conjLoop]
    cases hp : b.processConj docID idx conj with
    | ok b2 =>
      show outcomeGrows b (conjLoop docID b2 (idx + 1) rest)
      have h1 : stGrows b b2 := by
        have := processConj_grows b docID idx conj
        rw [hp] at this
        exact this
      have h2 := ih b2 (idx + 1)
      cases hc : conjLoop docID b2 (idx + 1) rest with
      | ok c =>
        rw [hc] at h2
        show outcomeGrows b (BuildOutcome.ok c)
        exact stGrows_trans h1 h2
      | err c e =>
        rw [hc] at h2
        show outcomeGrows b (BuildOutcome.err c e)
        exact stGrows_trans h1 h2
      | panicked m => trivial
    | err st e =>
      show outcomeGrows b (BuildOutcome.err st e)
      have := processConj_grows b docID idx conj
      rw [hp] at this
      exact this
    | panicked m => trivial

theorem buildDocEntries_grows (b : IndexerBuilder) (doc : Document) :
    outcomeGrows b (b.buildDocEntries doc) := by
  unfold IndexerBuilder.buildDocEntries
  split
  · trivial
  · split
    · trivial
    · exact conjLoop_grows doc.ID doc.Cons b 0

theorem addDocument_grows (docs : List Document) :
    ∀ b : IndexerBuilder, outcomeGrows b (b.AddDocument docs) := by
  induction docs with
  | nil => intro b; exact stGrows_refl b
  | cons doc rest ih =>
    intro b
    simp only [IndexerBuilder.AddDocument]
    cases hv : IndexerBuilder.validDocument doc with
    | some e =>
      show outcomeGrows b (BuildOutcome.err b e)
      exact stGrows_refl b
    | none =>
      cases hb : b.buildDocEntries doc with
      | ok b2 =>
        show outcomeGrows b (b2.AddDocument rest)
        have h1 : stGrows b b2 := by
          have := buildDocEntries_grows b doc
          rw [hb] at this
          exact this
        have h2 := ih b2
        cases hr : b2.AddDocument rest with
        | ok c =>
          rw [hr] at h2
          show outcomeGrows b (BuildOutcome.ok c)
          exact stGrows_trans h1 h2
        | err c e =>
          rw [hr] at h2
          show outcomeGrows b (BuildOutcome.err c e)
          exact stGrows_trans h1 h2
        | panicked m => trivial
      | err st e =>
        show outcomeGrows b (BuildOutcome.err st e)
        have := buildDocEntries_grows b doc
        rw [hb] at this
        exact this
      | panicked m => trivial

theorem addDocument_append (rest : List Document) :
    ∀ (pre : List Document) (b b1 : IndexerBuilder),
      b.AddDocument pre = .ok b1 →
      b.AddDocument (pre ++ rest) = b1.AddDocument rest := by
  intro pre
  induction pre with
  | nil =>
    intro b b1 hpre
    simp only [IndexerBuilder.AddDocument] at hpre
    injection hpre with h
    rw [List.nil_append, h]
  | cons d pre ih =>
    intro b b1 hpre
    simp only [List.cons_append, IndexerBuilder.AddDocument] at hpre ⊢
    cases hv : IndexerBuilder.validDocument d with
    | some e =>
      rw [hv] at hpre
      exact BuildOutcome.noConfusion hpre
    | none =>
      have hpre2 : (match b.buildDocEntries d with
          | .ok b2 => b2.AddDocument pre
          | .err st e => BuildOutcome.err st e
          | .panicked m => BuildOutcome.panicked m) = BuildOutcome.ok b1 := by
        rw [hv] at hpre
        exact hpre
      show (match b.buildDocEntries d with
          | .ok b2 => b2.AddDocument (pre ++ rest)
          | .err st e => BuildOutcome.err st e
          | .panicked m => BuildOutcome.panicked m) = b1.AddDocument rest
      cases hb : b.buildDocEntries d with
      | ok b2 =>
        rw [hb] at hpre2
        show b2.AddDocument (pre ++ rest) = b1.AddDocument rest
        exact ih b2 b1 hpre2
      | err st e =>
        rw [hb] at hpre2
        exact BuildOutcome.noConfusion hpre2
      | panicked m =>
        rw [hb] at hpre2
        exact BuildOutcome.noConfusion hpre2

/-- C10: AddDocument over a document list is not atomic.  Documents are
processed in order (the run over a successful prefix continues exactly as the
run from the prefix result state); everything committed by the prefix remains
(the state only grows); and when the next document fails indexing, AddDocument
returns that error immediately, with all earlier commits, and the commits of
earlier conjunctions of the failing document, still in the state (no
rollback). -/
theorem addDocument_sequential_no_rollback (b b1 : IndexerBuilder)
    (pre rest : List Document)
    (hpre : b.AddDocument pre = .ok b1) :
    b.AddDocument (pre ++ rest) = b1.AddDocument rest ∧
    stGrows b b1 ∧
    (∀ (d : Document) (post : List Document) (st : IndexerBuilder) (e : String),
      IndexerBuilder.validDocument d = none →
      b1.buildDocEntries d = .err st e →
      b1.AddDocument (d :: post) = .err st e ∧ stGrows b1 st) := by
  refine ⟨addDocument_append rest pre b b1 hpre, ?_, ?_⟩
  · have := addDocument_grows pre b
    rw [hpre] at this
    exact this
  · intro d post st e hv hb
    constructor
    · simp only [IndexerBuilder.AddDocument]
      rw [hv, hb]
    · have := buildDocEntries_grows b1 d
      rw [hb] at this
      exact this

/-- Concrete parser failing exactly on negative values at build time. -/
def mixParser : FieldValueParser :=
  { ParseValue := fun v => if v < 0 then .error "neg" else .ok [v.natAbs],
    ParseAssign := fun v => .ok [v.natAbs] }

/-- Concrete builder for the non-atomicity witness. -/
def builderC10 : IndexerBuilder := emptyBuilder mixParser ErrorBadConj none

/-- Document that indexes successfully under mixParser. -/
def docGoodC10 : Document :=
  { ID := 1, Cons := [[("A", [{ Incl := true, ExprValues := [1] }])]] }

/-- Document whose negative value makes indexing fail under mixParser. -/
def docBadC10 : Document :=
  { ID := 2, Cons := [[("A", [{ Incl := true, ExprValues := [-1] }])]] }

/-- Builder state after the successful prefix of the witness run. -/
def b1C10 : IndexerBuilder :=
  ((builderC10.AddDocument [docGoodC10]).okStateQ).getD builderC10

/-- Error state of the failing document build in the witness run. -/
def stC10 : IndexerBuilder :=
  (((b1C10.buildDocEntries docBadC10).errStateQ).getD (builderC10, "")).1

/-- Error message of the failing document build in the witness run. -/
def eC10 : String :=
  (((b1C10.buildDocEntries docBadC10).errStateQ).getD (builderC10, "")).2

/-- Witness for addDocument_sequential_no_rollback on a concrete two-document
run whose second document fails indexing. -/
theorem addDocument_sequential_no_rollback_witness :
    builderC10.AddDocument ([docGoodC10] ++ [docBadC10]) = b1C10.AddDocument [docBadC10] ∧
    stGrows builderC10 b1C10 ∧
    (b1C10.AddDocument [docBadC10] = .err stC10 eC10 ∧ stGrows b1C10 stC10) := by
  have h := addDocument_sequential_no_rollback builderC10 b1C10 [docGoodC10] [docBadC10]
    (by rfl)
  exact ⟨h.1, h.2.1, h.2.2 docBadC10 [] stC10 eC10 (by rfl) (by rfl)⟩

/-- C4: the failure policy switch of buildDocEntries.  When indexing one
conjunction fails (with no cache configured): under SkipBadConj the loop
continues with the next conjunction from the post-failure state, under
ErrorBadConj the document build aborts with the wrapped error, and under
PanicBadConj or any other value the process panics; in the first two cases no
transaction of the failing conjunction is committed (every posting list is
exactly as before the conjunction). -/
theorem badConjBehavior_failure_policy (b : IndexerBuilder) (docID idx : Nat)
    (conj : Conjunction) (rest : List Conjunction) (e : String)
    (hcache : b.builderCache = none)
    (herr : ((wildcardAdjust b docID idx conj).indexingConjunction conj
        (conjIDOf docID idx conj)).2 = .error e) :
    (b.badConjBehavior = SkipBadConj →
      conjLoop docID b idx (conj :: rest) =
        conjLoop docID ((wildcardAdjust b docID idx conj).indexingConjunction conj
          (conjIDOf docID idx conj)).1 (idx + 1) rest) ∧
    (b.badConjBehavior = ErrorBadConj →
      conjLoop docID b idx (conj :: rest) =
        .err ((wildcardAdjust b docID idx conj).indexingConjunction conj
          (conjIDOf docID idx conj)).1 ("indexing conj fail:" ++ e)) ∧
    (b.badConjBehavior ≠ SkipBadConj → b.badConjBehavior ≠ ErrorBadConj →
      conjLoop docID b idx (conj :: rest) = .panicked ("indexing conj fail:" ++ e)) ∧
    (∀ hk key,
      postingOf ((wildcardAdjust b docID idx conj).indexingConjunction conj
        (conjIDOf docID idx conj)).1 hk key = postingOf b hk key) := by
  have hcw : (wildcardAdjust b docID idx conj).builderCache = none := by
    rw [wildcardAdjust_cache]
    exact hcache
  have htu := tryUseIndexingTxCache_of_none (wildcardAdjust b docID idx conj)
    (conjIDOf docID idx conj) hcw
  have hic : (wildcardAdjust b docID idx conj).indexingConjunction conj
      (conjIDOf docID idx conj)
      = (((wildcardAdjust b docID idx conj).indexingConjunction conj
          (conjIDOf docID idx conj)).1, .error e) := by
    rw [← herr]
  have hpc : b.processConj docID idx conj =
      (if b.badConjBehavior = SkipBadConj then
        BuildOutcome.ok ((wildcardAdjust b docID idx conj).indexingConjunction conj
          (conjIDOf docID idx conj)).1
       else if b.badConjBehavior = ErrorBadConj then
        BuildOutcome.err ((wildcardAdjust b docID idx conj).indexingConjunction conj
          (conjIDOf docID idx conj)).1 ("indexing conj fail:" ++ e)
       else BuildOutcome.panicked ("indexing conj fail:" ++ e)) := by
    unfold IndexerBuilder.processConj
    rw [htu]
    show (match (wildcardAdjust b docID idx conj).indexingConjunction conj
        (conjIDOf docID idx conj) with
      | (b3, .error e) =>
        if b.badConjBehavior = SkipBadConj then BuildOutcome.ok b3
        else if b.badConjBehavior = ErrorBadConj then
          BuildOutcome.err b3 ("indexing conj fail:" ++ e)
        else BuildOutcome.panicked ("indexing conj fail:" ++ e)
      | (b3, .ok (txs, needCache)) =>
        BuildOutcome.ok (commitTxs
          (if needCache then b3.tryCacheIndexingTx (conjIDOf docID idx conj) txs else b3)
          txs)) = _
    rw [hic]
  have hfr := buildFrame_indexingConjunction (wildcardAdjust b docID idx conj) conj
    (conjIDOf docID idx conj)
  refine ⟨?_, ?_, ?_, ?_⟩
  · intro hskip
    simp only [conjLoop, hpc, hskip, if_pos]
  · intro herrb
    simp only [conjLoop, hpc, herrb]
    simp [SkipBadConj, ErrorBadConj]
  · intro h1 h2
    simp only [conjLoop, hpc, if_neg h1, if_neg h2]
  · intro hk key
    rw [hfr.1 hk key]
    unfold postingOf
    rw [wildcardAdjust_holders]

/-- Concrete builder with the Skip policy and a failing parser. -/
def builderSkipC4 : IndexerBuilder := emptyBuilder failParser SkipBadConj none

/-- Concrete conjunction whose expression cannot be parsed. -/
def conjBadC4 : Conjunction := [("A", [{ Incl := true, ExprValues := [1] }])]

/-- Witness for badConjBehavior_failure_policy: under Skip the loop continues
past the bad conjunction and no posting list changed. -/
theorem badConjBehavior_failure_policy_witness :
    conjLoop 1 builderSkipC4 0 [conjBadC4] =
      conjLoop 1 ((wildcardAdjust builderSkipC4 1 0 conjBadC4).indexingConjunction conjBadC4
        (conjIDOf 1 0 conjBadC4)).1 1 [] ∧
    (∀ hk key, postingOf ((wildcardAdjust builderSkipC4 1 0 conjBadC4).indexingConjunction
        conjBadC4 (conjIDOf 1 0 conjBadC4)).1 hk key = postingOf builderSkipC4 hk key) := by
  have h := badConjBehavior_failure_policy builderSkipC4 1 0 conjBadC4 []
    "indexing field:A fail:boom" rfl (by rfl)
  exact ⟨h.1 rfl, h.2.2.2⟩

/-- C1 (amended claim): for a conjunction of include-size K = 0 the builder
emits a wildcard EntryID (include flag true) for its ConjunctionID, and then
still falls through to indexing: there is no early continue, so the
transactions of the conjunction are computed and committed exactly as for any
other conjunction (stated here for the cache-less successful path). -/
theorem buildDocEntries_k0_wildcard_and_indexes (b : IndexerBuilder) (docID idx : Nat)
    (conj : Conjunction) (txs : List IndexingBETx) (nc : Bool)
    (hk0 : conj.CalcConjSize = 0)
    (hcache : b.builderCache = none)
    (hok : ((wildcardAdjust b docID idx conj).indexingConjunction conj
        (conjIDOf docID idx conj)).2 = .ok (txs, nc)) :
    b.processConj docID idx conj =
      .ok (commitTxs ((wildcardAdjust b docID idx conj).indexingConjunction conj
        (conjIDOf docID idx conj)).1 txs) ∧
    (commitTxs ((wildcardAdjust b docID idx conj).indexingConjunction conj
        (conjIDOf docID idx conj)).1 txs).wildcardEntries
      = b.wildcardEntries ++ [NewEntryID (conjIDOf docID idx conj) true] := by
  have hcw : (wildcardAdjust b docID idx conj).builderCache = none := by
    rw [wildcardAdjust_cache]
    exact hcache
  have htu := tryUseIndexingTxCache_of_none (wildcardAdjust b docID idx conj)
    (conjIDOf docID idx conj) hcw
  have hic : (wildcardAdjust b docID idx conj).indexingConjunction conj
      (conjIDOf docID idx conj)
      = (((wildcardAdjust b docID idx conj).indexingConjunction conj
          (conjIDOf docID idx conj)).1, .ok (txs, nc)) := by
    rw [← hok]
  have hfr := buildFrame_indexingConjunction (wildcardAdjust b docID idx conj) conj
    (conjIDOf docID idx conj)
  have hiccache : ((wildcardAdjust b docID idx conj).indexingConjunction conj
      (conjIDOf docID idx conj)).1.builderCache = none := by
    rw [hfr.2.2.1]
    exact hcw
  constructor
  · unfold IndexerBuilder.processConj
    rw [htu]
    show (match (wildcardAdjust b docID idx conj).indexingConjunction conj
        (conjIDOf docID idx conj) with
      | (b3, .error e) =>
        if b.badConjBehavior = SkipBadConj then BuildOutcome.ok b3
        else if b.badConjBehavior = ErrorBadConj then
          BuildOutcome.err b3 ("indexing conj fail:" ++ e)
        else BuildOutcome.panicked ("indexing conj fail:" ++ e)
      | (b3, .ok (txs, needCache)) =>
        BuildOutcome.ok (commitTxs
          (if needCache then b3.tryCacheIndexingTx (conjIDOf docID idx conj) txs else b3)
          txs)) = _
    rw [hic]
    cases nc with
    | true =>
      simp only [if_pos]
      rw [tryCacheIndexingTx_of_none _ _ _ hiccache]
    | false => simp
  · rw [commitTxs_wildcard, hfr.2.1]
    unfold wildcardAdjust
    rw [if_pos hk0]
    rfl

/-- Concrete builder for the wildcard-conjunction counterexample. -/
def builderC1 : IndexerBuilder := emptyBuilder idTokenParser ErrorBadConj none

/-- Concrete K = 0 conjunction holding one exclude expression. -/
def conjZ : Conjunction := [("B", [{ Incl := false, ExprValues := [5] }])]

/-- C1 counterexample: processing the K = 0 conjunction conjZ emits the
wildcard entry AND commits the exclude expression into the (0, field 0)
holder at key (0, 5), refuting that the builder continues to the next
conjunction without running or committing the expressions. -/
theorem buildDocEntries_k0_commits_counterexample :
    conjZ.CalcConjSize = 0 ∧
    ((builderC1.processConj 7 0 conjZ).okStateQ.getD builderC1).wildcardEntries
      = [NewEntryID (NewConjID 7 0 0) true] ∧
    postingOf ((builderC1.processConj 7 0 conjZ).okStateQ.getD builderC1) (0, 0) (0, 5)
      = [NewEntryID (NewConjID 7 0 0) false] ∧
    postingOf builderC1 (0, 0) (0, 5) = [] := by
  exact ⟨rfl, rfl, rfl, rfl⟩

/-- Descriptor created on the fly for field B in the witness run. -/
def descB : FieldDesc :=
  { ID := 0, Field := "B", opt := { Parser := "", Container := HolderNameDefault },
    Parser := idTokenParser }

/-- The single transaction of the witness conjunction. -/
def txB : IndexingBETx :=
  { fieldD := descB, holderKey := (0, 0), EID := NewEntryID (NewConjID 7 0 0) false,
    Data := [5] }

/-- Witness for buildDocEntries_k0_wildcard_and_indexes at the concrete
exclude-only conjunction conjZ. -/
theorem buildDocEntries_k0_wildcard_and_indexes_witness :
    builderC1.processConj 7 0 conjZ =
      .ok (commitTxs ((wildcardAdjust builderC1 7 0 conjZ).indexingConjunction conjZ
        (conjIDOf 7 0 conjZ)).1 [txB]) ∧
    (commitTxs ((wildcardAdjust builderC1 7 0 conjZ).indexingConjunction conjZ
        (conjIDOf 7 0 conjZ)).1 [txB]).wildcardEntries
      = builderC1.wildcardEntries ++ [NewEntryID (conjIDOf 7 0 conjZ) true] :=
  buildDocEntries_k0_wildcard_and_indexes builderC1 7 0 conjZ [txB] true rfl rfl (by rfl)

/-- Wellformedness of a produced indexing transaction relative to a builder
state: its descriptor is registered under its field name, its holder slot
exists, and the slot is (size K, field id). -/
def txWf (b : IndexerBuilder) (k : Nat) (tx : IndexingBETx) : Prop :=
  alookup tx.fieldD.Field b.fieldsData = some tx.fieldD ∧
  (alookup tx.holderKey b.holders).isSome = true ∧
  tx.holderKey = (k, tx.fieldD.ID)

theorem txWf_mono {b c : IndexerBuilder} {k : Nat} {tx : IndexingBETx}
    (hf : buildFrame b c) (h : txWf b k tx) : txWf c k tx :=
  ⟨hf.2.2.2.2.1 _ _ h.1, hf.2.2.2.2.2.1 _ h.2.1, h.2.2⟩

theorem createFieldData_of_found (b : IndexerBuilder) (f : BEField) (d : FieldDesc)
    (h : alookup f b.fieldsData = some d) : b.createFieldData f = (b, d) := by
  unfold IndexerBuilder.createFieldData
  rw [h]

theorem createHolder_of_found (b : IndexerBuilder) (k : Nat) (d : FieldDesc)
    (h : (alookup ((k, d.ID) : Nat × Nat) b.holders).isSome = true) :
    b.CreateHolder k d = (b, (k, d.ID)) := by
  unfold IndexerBuilder.CreateHolder
  dsimp only
  cases hf : alookup ((k, d.ID) : Nat × Nat) b.holders with
  | some h0 => rfl
  | none => rw [hf] at h; simp at h

theorem indexingExprs_ok_structure (field : BEField) (k conjID : Nat) :
    ∀ (exprs : List Expression) (b : IndexerBuilder) (txs : List IndexingBETx) (cnt : Nat)
      (c : IndexerBuilder) (txs2 : List IndexingBETx) (cnt2 : Nat),
      exprs.length ≤ 1 → fdWf b →
      indexingExprs field k conjID b exprs txs cnt = (c, .ok (txs2, cnt2)) →
      txs2 = txs ∨ ∃ tx, txs2 = txs ++ [tx] ∧ tx.fieldD.Field = field ∧ txWf c k tx := by
  intro exprs
  cases exprs with
  | nil =>
    intro b txs cnt c txs2 cnt2 hlen hwf heq
    simp only [indexingExprs] at heq
    have h2 : Except.ok (ε := String) (txs, cnt) = .ok (txs2, cnt2) :=
      congrArg Prod.snd heq
    injection h2 with h3
    injection h3 with h4 h5
    exact Or.inl h4.symm
  | cons expr rest =>
    intro b txs cnt c txs2 cnt2 hlen hwf heq
    cases rest with
    | cons e2 r2 => simp at hlen
    | nil =>
      simp only [indexingExprs] at heq
      cases hp : holderIndexingBETx (b.createFieldData field).2 expr.ExprValues with
      | error e =>
        rw [hp] at heq
        have h2 := congrArg Prod.snd heq
        simp at h2
      | ok txData =>
        rw [hp] at heq
        simp only [indexingExprs] at heq
        injection heq with hc h2
        injection h2 with h3
        injection h3 with h4 h5
        right
        refine ⟨_, h4.symm, ?_, ?_, ?_, ?_⟩
        · exact (createFieldData_self b field hwf).1
        · show alookup (b.createFieldData field).2.Field c.fieldsData
            = some (b.createFieldData field).2
          rw [← hc, createHolder_fieldsData, (createFieldData_self b field hwf).1]
          exact (createFieldData_self b field hwf).2
        · show (alookup ((b.createFieldData field).1.CreateHolder k
              (b.createFieldData field).2).2 c.holders).isSome = true
          rw [← hc, createHolder_key]
          exact createHolder_self (b.createFieldData field).1 k (b.createFieldData field).2
        · show ((b.createFieldData field).1.CreateHolder k (b.createFieldData field).2).2
            = (k, (b.createFieldData field).2.ID)
          exact createHolder_key (b.createFieldData field).1 k (b.createFieldData field).2

theorem indexingFields_ok_structure (k conjID : Nat) :
    ∀ (conj : Conjunction) (b : IndexerBuilder) (txs : List IndexingBETx) (cnt : Nat)
      (c : IndexerBuilder) (txs2 : List IndexingBETx) (cnt2 : Nat),
      (∀ fe ∈ conj, fe.2.length ≤ 1) → fdWf b →
      indexingFields k conjID b conj txs cnt = (c, .ok (txs2, cnt2)) →
      ∃ newTxs, txs2 = txs ++ newTxs ∧
        (∀ tx ∈ newTxs, txWf c k tx) ∧
        (newTxs.map (fun tx => tx.fieldD.Field)).Sublist (conj.map Prod.fst) := by
  intro conj
  induction conj with
  | nil =>
    intro b txs cnt c txs2 cnt2 hlen hwf heq
    simp only [indexingFields] at heq
    injection heq with hc h2
    injection h2 with h3
    injection h3 with h4 h5
    exact ⟨[], by rw [← h4]; simp, by simp, by simp⟩
  | cons fe rest ih =>
    intro b txs cnt c txs2 cnt2 hlen hwf heq
    simp only [indexingFields] at heq
    cases hx : indexingExprs fe.1 k conjID b fe.2 txs cnt with
    | mk b2 res =>
      rw [hx] at heq
      cases res with
      | error e =>
        injection heq with hc h2
        simp at h2
      | ok p =>
        cases p with
        | mk txsA cntA =>
          have heq3 : indexingFields k conjID b2 rest txsA cntA
              = (c, .ok (txs2, cnt2)) := heq
          have hfr2 : buildFrame b b2 := by
            have := buildFrame_indexingExprs fe.1 k conjID fe.2 b txs cnt
            rw [hx] at this
            exact this
          have hwf2 : fdWf b2 := hfr2.2.2.2.2.2.2 hwf
          have hstep := indexingExprs_ok_structure fe.1 k conjID fe.2 b txs cnt b2 txsA cntA
            (hlen fe (List.mem_cons_self fe rest)) hwf hx
          rcases ih b2 txsA cntA c txs2 cnt2
            (fun g hg => hlen g (List.mem_cons_of_mem fe hg)) hwf2 heq3 with
            ⟨newTxs2, hts, hwfs, hsub⟩
          rcases hstep with hsame | ⟨tx0, htx0, hfield, hwftx⟩
          · subst hsame
            refine ⟨newTxs2, hts, hwfs, ?_⟩
            simp only [List.map_cons]
            exact hsub.cons fe.1
          · have hfrc : buildFrame b2 c := by
              have := buildFrame_indexingFields k conjID rest b2 txsA cntA
              rw [heq3] at this
              exact this
            subst htx0
            refine ⟨tx0 :: newTxs2, by rw [hts]; simp, ?_, ?_⟩
            · intro tx htx
              rcases List.mem_cons.mp htx with h | h
              · subst h
                exact txWf_mono hfrc hwftx
              · exact hwfs tx h
            · simp only [List.map_cons]
              rw [hfield]
              exact hsub.cons₂ fe.1

theorem indexingConjunction_ok_structure (b : IndexerBuilder) (conj : Conjunction)
    (conjID : Nat) (txs : List IndexingBETx) (nc : Bool)
    (hlen : ∀ fe ∈ conj, fe.2.length ≤ 1) (hwf : fdWf b)
    (heq : (b.indexingConjunction conj conjID).2 = .ok (txs, nc)) :
    (∀ tx ∈ txs, txWf (b.indexingConjunction conj conjID).1 (conjIDSize conjID) tx) ∧
    (txs.map (fun tx => tx.fieldD.Field)).Sublist (conj.map Prod.fst) := by
  unfold IndexerBuilder.indexingConjunction at heq ⊢
  cases hx : indexingFields (conjIDSize conjID) conjID b conj [] 0 with
  | mk b2 res =>
    rw [hx] at heq
    cases res with
    | error e => simp at heq
    | ok p =>
      cases p with
      | mk txs0 cnt =>
        have heq2 : Except.ok (ε := String) (txs0, cnt != 0) = .ok (txs, nc) := heq
        injection heq2 with h3
        injection h3 with h4 h5
        rcases indexingFields_ok_structure (conjIDSize conjID) conjID conj b [] 0 b2 txs0 cnt
            hlen hwf hx with
          ⟨newTxs, hts, hwfs, hsub⟩
        rw [List.nil_append] at hts
        subst hts
        subst h4
        exact ⟨fun tx htx => hwfs tx htx, hsub⟩

theorem foldl_aset_nodup :
    ∀ (txs : List IndexingBETx) (acc : List (BEField × FieldCache)),
      (txs.map (fun tx => tx.fieldD.Field)).Nodup →
      (∀ tx ∈ txs, alookup tx.fieldD.Field acc = none) →
      txs.foldl (fun acc tx => aset tx.fieldD.Field
          { eid := tx.EID, data := some tx.Data } acc) acc
        = acc ++ txs.map (fun tx => (tx.fieldD.Field,
            ({ eid := tx.EID, data := some tx.Data } : FieldCache))) := by
  intro txs
  induction txs with
  | nil =>
    intro acc h1 h2
    simp
  | cons tx rest ih =>
    intro acc h1 h2
    simp only [List.foldl_cons, List.map_cons]
    rw [aset_of_absent _ _ _ (h2 tx (List.mem_cons_self tx rest))]
    have habs : ∀ tx2 ∈ rest, alookup tx2.fieldD.Field
        (acc ++ [(tx.fieldD.Field,
          ({ eid := tx.EID, data := some tx.Data } : FieldCache))]) = none := by
      intro tx2 htx2
      rw [alookup_append_none _ _ _ (h2 tx2 (List.mem_cons_of_mem tx htx2)), alookup_single]
      have hne : tx2.fieldD.Field ≠ tx.fieldD.Field := by
        intro hcontra
        have hmem : tx.fieldD.Field ∈ List.map (fun tx => tx.fieldD.Field) rest := by
          rw [← hcontra]
          exact List.mem_map_of_mem _ htx2
        exact (List.nodup_cons.mp h1).1 hmem
      simp [hne]
    rw [ih _ (List.nodup_cons.mp h1).2 habs]
    simp

theorem decodeTxLoop_roundtrip (conjID : Nat) :
    ∀ (txs : List IndexingBETx) (b : IndexerBuilder) (acc : List IndexingBETx),
      (∀ tx ∈ txs, txWf b (conjIDSize conjID) tx) →
      decodeTxLoop conjID b (txs.map (fun tx => (tx.fieldD.Field,
          ({ eid := tx.EID, data := some tx.Data } : FieldCache)))) acc
        = (b, some (acc ++ txs)) := by
  intro txs
  induction txs with
  | nil =>
    intro b acc h
    simp [decodeTxLoop]
  | cons tx rest ih =>
    intro b acc h
    have hwftx := h tx (List.mem_cons_self tx rest)
    simp only [List.map_cons, decodeTxLoop]
    rw [createFieldData_of_found b tx.fieldD.Field tx.fieldD hwftx.1]
    rw [createHolder_of_found b (conjIDSize conjID) tx.fieldD
      (by rw [← hwftx.2.2]; exact hwftx.2.1)]
    dsimp only [DecodeTxData]
    have htx : IndexingBETx.mk tx.fieldD (conjIDSize conjID, tx.fieldD.ID) tx.EID tx.Data
        = tx := by
      rw [← hwftx.2.2]
    rw [htx, ih b (acc ++ [tx]) (fun tx2 htx2 => h tx2 (List.mem_cons_of_mem tx htx2))]
    simp

theorem tryUse_of_set (c : IndexerBuilder) (conjID : Nat) (cm : CacheMap)
    (msg : IndexingTxCache)
    (hc : c.builderCache = some (aset conjID (protoMarshal msg) cm)) :
    c.tryUseIndexingTxCache conjID =
      (match decodeTxLoop conjID c msg.fieldData [] with
       | (b2, none) => (b2, none)
       | (b2, some txs) => (b2, if txs.isEmpty then none else some txs)) := by
  unfold IndexerBuilder.tryUseIndexingTxCache
  rw [hc]
  show (match alookup conjID (aset conjID (protoMarshal msg) cm) with
    | none => (c, none)
    | some bytes =>
      match protoUnmarshal bytes with
      | .error _ => (c, none)
      | .ok txCache =>
        match decodeTxLoop conjID c txCache.fieldData [] with
        | (b2, none) => (b2, none)
        | (b2, some txs) => (b2, if txs.isEmpty then none else some txs)) = _
  rw [alookup_aset_self]
  rfl

theorem tryUse_miss (d : IndexerBuilder) (conjID : Nat) (cm2 : CacheMap)
    (hc : d.builderCache = some cm2) (hl : alookup conjID cm2 = none) :
    d.tryUseIndexingTxCache conjID = (d, none) := by
  unfold IndexerBuilder.tryUseIndexingTxCache
  rw [hc]
  show (match alookup conjID cm2 with
    | none => (d, none)
    | some bytes =>
      match protoUnmarshal bytes with
      | .error _ => (d, none)
      | .ok txCache =>
        match decodeTxLoop conjID d txCache.fieldData [] with
        | (b2, none) => (b2, none)
        | (b2, some txs) => (b2, if txs.isEmpty then none else some txs)) = _
  rw [hl]

theorem tryUse_corrupt (d : IndexerBuilder) (conjID : Nat) (cm2 : CacheMap)
    (hc : d.builderCache = some cm2) (hl : alookup conjID cm2 = some none) :
    d.tryUseIndexingTxCache conjID = (d, none) := by
  unfold IndexerBuilder.tryUseIndexingTxCache
  rw [hc]
  show (match alookup conjID cm2 with
    | none => (d, none)
    | some bytes =>
      match protoUnmarshal bytes with
      | .error _ => (d, none)
      | .ok txCache =>
        match decodeTxLoop conjID d txCache.fieldData [] with
        | (b2, none) => (b2, none)
        | (b2, some txs) => (b2, if txs.isEmpty then none else some txs)) = _
  rw [hl]
  rfl

/-- C7 (amended claim): the builder cache round-trips per conjunction only
when each field carries at most one expression.  Under that restriction (and
distinct field names), caching the computed transactions and probing the cache
returns exactly the original transactions, so committing the decoded
transactions yields the same posting lists; on a nil cache, a missed key, or a
malformed payload the probe returns none and buildDocEntries falls back to
recomputing; and whenever the probe returns transactions, processConj commits
them instead of recomputing.  Because tryCacheIndexingTx keys the cached
records by field name, a conjunction with two expressions on one field caches
only the last one and the round-trip fails (see the counterexample). -/
theorem cache_roundtrip_single_expr_per_field (b : IndexerBuilder) (conj : Conjunction)
    (conjID : Nat) (txs : List IndexingBETx) (nc : Bool) (cm : CacheMap)
    (hwf : fdWf b)
    (h1 : (conj.map Prod.fst).Nodup)
    (h2 : ∀ fe ∈ conj, fe.2.length ≤ 1)
    (hcm : b.builderCache = some cm)
    (hne : txs ≠ [])
    (hok : (b.indexingConjunction conj conjID).2 = .ok (txs, nc)) :
    ((b.indexingConjunction conj conjID).1.tryCacheIndexingTx conjID
        txs).tryUseIndexingTxCache conjID
      = ((b.indexingConjunction conj conjID).1.tryCacheIndexingTx conjID txs, some txs) ∧
    (∀ (d : IndexerBuilder), d.builderCache = none →
      d.tryUseIndexingTxCache conjID = (d, none)) ∧
    (∀ (d : IndexerBuilder) (cm2 : CacheMap), d.builderCache = some cm2 →
      alookup conjID cm2 = none → d.tryUseIndexingTxCache conjID = (d, none)) ∧
    (∀ (d : IndexerBuilder) (cm2 : CacheMap), d.builderCache = some cm2 →
      alookup conjID cm2 = some none → d.tryUseIndexingTxCache conjID = (d, none)) ∧
    (∀ (d d2 : IndexerBuilder) (txs2 : List IndexingBETx) (docID idx : Nat)
        (cj : Conjunction),
      (wildcardAdjust d docID idx cj).tryUseIndexingTxCache (conjIDOf docID idx cj)
        = (d2, some txs2) →
      d.processConj docID idx cj = .ok (commitTxs d2 txs2)) := by
  have hfr := buildFrame_indexingConjunction b conj conjID
  have hccache : (b.indexingConjunction conj conjID).1.builderCache = some cm := by
    rw [hfr.2.2.1]
    exact hcm
  rcases indexingConjunction_ok_structure b conj conjID txs nc h2 hwf hok with ⟨hwfs, hsub⟩
  have hnodup : (txs.map (fun tx => tx.fieldD.Field)).Nodup := hsub.nodup h1
  refine ⟨?_, ?_, ?_, ?_, ?_⟩
  · have hframe := tryCacheIndexingTx_frame (b.indexingConjunction conj conjID).1 conjID txs
    have hsb : ((b.indexingConjunction conj conjID).1.tryCacheIndexingTx conjID
        txs).builderCache
        = some (aset conjID (protoMarshal (IndexingTxCache.mk conjID (txs.map (fun tx =>
            (tx.fieldD.Field, FieldCache.mk tx.EID (some tx.Data)))))) cm) := by
      unfold IndexerBuilder.tryCacheIndexingTx
      rw [hccache]
      show some (aset conjID (protoMarshal (IndexingTxCache.mk conjID
          (txs.foldl (fun acc tx =>
            aset tx.fieldD.Field (FieldCache.mk tx.EID (some tx.Data)) acc) []))) cm) = _
      rw [foldl_aset_nodup txs [] hnodup (fun tx htx => rfl)]
      rw [List.nil_append]
    have hwfS : ∀ tx ∈ txs, txWf ((b.indexingConjunction conj conjID).1.tryCacheIndexingTx
        conjID txs) (conjIDSize conjID) tx := by
      intro tx htx
      refine ⟨?_, ?_, (hwfs tx htx).2.2⟩
      · rw [hframe.2.2.1]
        exact (hwfs tx htx).1
      · rw [hframe.1]
        exact (hwfs tx htx).2.1
    rw [tryUse_of_set _ conjID cm (IndexingTxCache.mk conjID (txs.map (fun tx =>
        (tx.fieldD.Field, FieldCache.mk tx.EID (some tx.Data))))) hsb]
    dsimp only
    rw [decodeTxLoop_roundtrip conjID txs _ [] hwfS]
    cases txs with
    | nil => exact absurd rfl hne
    | cons t ts => simp
  · exact fun d hd => tryUseIndexingTxCache_of_none d conjID hd
  · exact fun d cm2 hc hl => tryUse_miss d conjID cm2 hc hl
  · exact fun d cm2 hc hl => tryUse_corrupt d conjID cm2 hc hl
  · intro d d2 txs2 docID idx cj hhit
    unfold IndexerBuilder.processConj
    rw [hhit]

/-- Concrete cache-backed builder for the multi-expression counterexample. -/
def builderC7x : IndexerBuilder := emptyBuilder idTokenParser ErrorBadConj (some [])

/-- Conjunction with two include expressions on the same field A. -/
def conjAA : Conjunction :=
  [("A", [{ Incl := true, ExprValues := [1] }, { Incl := true, ExprValues := [2] }])]

/-- State after building conjAA directly (cache gets populated). -/
def s1C7 : IndexerBuilder := (builderC7x.processConj 9 0 conjAA).okStateQ.getD builderC7x

/-- Fresh builder sharing only the populated cache, as a rebuild would. -/
def b2C7 : IndexerBuilder := { builderC7x with builderCache := s1C7.builderCache }

/-- State after rebuilding conjAA through the cache hit. -/
def s2C7 : IndexerBuilder := (b2C7.processConj 9 0 conjAA).okStateQ.getD b2C7

/-- C7 counterexample: rebuilding conjAA from the cache takes the cache-hit
path, but tryCacheIndexingTx keyed both transactions by the field name A so
only the second survived: the rebuilt posting list at key (A, token 1) is
empty while the direct build committed an entry there, refuting that the
posting lists from committing the cached transactions equal those from the
originally computed transactions. -/
theorem cache_multi_expr_field_counterexample :
    ((wildcardAdjust b2C7 9 0 conjAA).tryUseIndexingTxCache (conjIDOf 9 0 conjAA)).2.isSome
      = true ∧
    postingOf s1C7 (2, 0) (0, 1) = [NewEntryID (NewConjID 9 0 2) true] ∧
    postingOf s2C7 (2, 0) (0, 1) = [] ∧
    postingOf s1C7 (2, 0) (0, 2) = [NewEntryID (NewConjID 9 0 2) true] ∧
    postingOf s2C7 (2, 0) (0, 2) = [NewEntryID (NewConjID 9 0 2) true] := by
  exact ⟨rfl, rfl, rfl, rfl, rfl⟩

/-- Concrete cache-backed builder for the round-trip witness. -/
def builderC7w : IndexerBuilder := emptyBuilder idTokenParser ErrorBadConj (some [])

/-- Single-expression conjunction on field A for the round-trip witness. -/
def conjA1 : Conjunction := [("A", [{ Incl := true, ExprValues := [4] }])]

/-- Descriptor created on the fly for field A in the witness run. -/
def descA : FieldDesc :=
  { ID := 0, Field := "A", opt := { Parser := "", Container := HolderNameDefault },
    Parser := idTokenParser }

/-- The single transaction of the witness conjunction. -/
def txA : IndexingBETx :=
  { fieldD := descA, holderKey := (5, 0), EID := NewEntryID 5 true, Data := [4] }

/-- Witness for cache_roundtrip_single_expr_per_field at the concrete
one-expression conjunction conjA1 with conjunction id 5. -/
theorem cache_roundtrip_witness :
    ((builderC7w.indexingConjunction conjA1 5).1.tryCacheIndexingTx 5
        [txA]).tryUseIndexingTxCache 5
      = ((builderC7w.indexingConjunction conjA1 5).1.tryCacheIndexingTx 5 [txA],
          some [txA]) := by
  have h := cache_roundtrip_single_expr_per_field builderC7w conjA1 5 [txA] true []
    (fun f d hd => Option.noConfusion hd)
    (by simp [conjA1])
    (by
      intro fe hfe
      simp only [conjA1, List.mem_singleton] at hfe
      subst hfe
      exact Nat.le_refl 1)
    rfl
    (List.cons_ne_nil txA [])
    (by rfl)
  exact h.1
